import Mathlib

set_option maxRecDepth 8000

/-! Shallow embedding of src/schedule_parser.py.

Input documents are JSON-like values.  The Python behaviour the source
relies on — dict truthiness, dict.get, str(), str.strip(), int(), list
sorting with a key function, and the exceptions raised on ill-shaped
values — is modelled explicitly.  Fallible Python code is modelled in
Except String, the error string naming the raised Python exception.
JSON numbers are modelled as integers: every numeric field the source
touches (staff ids, locationId, service ids) is integer-valued; float
literals and str() of nested floats are outside the model.  Python list
to list comparison inside a sort key is likewise not modelled (it is
mapped to a TypeError); no document in scope sorts list-valued keys. -/

/-- JSON-like values.  Object fields keep document order, as Python
dicts preserve insertion order. -/
inductive Json where
  | null
  | bool (b : Bool)
  | num (n : Int)
  | str (s : String)
  | arr (elems : List Json)
  | obj (fields : List (String × Json))

/-- First-match lookup in an object's field list (Python dict lookup;
real dicts have unique keys, so first match is exact). -/
def lookupF : List (String × Json) → String → Option Json
  | [], _ => none
  | (k, v) :: rest, key => if k = key then some v else lookupF rest key

/-- Python truthiness of a JSON value. -/
def truthy : Json → Bool
  | .null => false
  | .bool b => b
  | .num n => n != 0
  | .str s => s != ""
  | .arr xs => !xs.isEmpty
  | .obj fs => !fs.isEmpty

/-- Comma-space join, as Python repr of containers uses. -/
def joinComma (l : List String) : String := String.intercalate ", " l

mutual

/-- Size of a JSON value, used as a recursion-depth bound. -/
def jsize : Json → Nat
  | .null => 1
  | .bool _ => 1
  | .num _ => 1
  | .str _ => 1
  | .arr xs => 1 + jsizeL xs
  | .obj fs => 1 + jsizeF fs

/-- Size of a JSON array's elements. -/
def jsizeL : List Json → Nat
  | [] => 0
  | x :: xs => jsize x + jsizeL xs

/-- Size of a JSON object's fields. -/
def jsizeF : List (String × Json) → Nat
  | [] => 0
  | (_, v) :: fs => jsize v + jsizeF fs

end

/-- Fueled Python repr of a JSON value; the fuel is instantiated with a
size bound so the function is exact on every input while keeping the
recursion structural (hence kernel-computable). -/
def pyReprAux : Nat → Json → String
  | 0, _ => ""
  | _ + 1, .null => "None"
  | _ + 1, .bool b => if b then "True" else "False"
  | _ + 1, .num n => toString n
  | _ + 1, .str s => "'" ++ s ++ "'"
  | n + 1, .arr xs => "[" ++ joinComma (xs.map (pyReprAux n)) ++ "]"
  | n + 1, .obj fs =>
      "\x7b" ++ joinComma (fs.map (fun p => "'" ++ p.1 ++ "': " ++ pyReprAux n p.2)) ++ "\x7d"

/-- Python str() of a JSON value (line 123 and line 53 of the source
apply str to field values). -/
def pyStr (v : Json) : String :=
  match v with
  | .str s => s
  | v => pyReprAux (jsize v + 1) v

/-- Python str.isspace characters in the ASCII range (the ones
str.strip removes). -/
def isPySpace (c : Char) : Bool :=
  c = ' ' || c = '\t' || c = '\n' || c = '\r' || c = '\x0b' || c = '\x0c'

/-- Python str.strip(): drop whitespace from both ends. -/
def pyStrip (s : String) : String :=
  ⟨((s.data.dropWhile isPySpace).reverse.dropWhile isPySpace).reverse⟩

/-- Python dict.get(key, default) on a JSON value with a string key:
returns the stored value (even when that value is null) or the default
when the key is absent; raises AttributeError when the receiver is not
a dict. -/
def pyGet (v : Json) (k : String) (d : Json) : Except String Json :=
  match v with
  | .obj fs => .ok ((lookupF fs k).getD d)
  | _ => .error "AttributeError"

/-- Hashability of a JSON value used as a Python dict key. -/
def hashable : Json → Bool
  | .arr _ => false
  | .obj _ => false
  | _ => true

/-- Python equality between hashable JSON values (booleans compare
equal to the corresponding integers, as in Python). -/
def keyEq : Json → Json → Bool
  | .null, .null => true
  | .bool a, .bool b => a == b
  | .bool a, .num n => (if a then (1 : Int) else 0) == n
  | .num n, .bool b => n == (if b then (1 : Int) else 0)
  | .num a, .num b => a == b
  | .str a, .str b => a == b
  | _, _ => false

/-- Python dict.get(key, default) where the key is an arbitrary value
(line 109: staff_shifts.get(date, [])).  JSON object keys are strings,
so a non-string hashable key never matches and yields the default; an
unhashable key raises TypeError, a non-dict receiver AttributeError. -/
def pyGetK (v : Json) (k : Json) (d : Json) : Except String Json :=
  match v with
  | .obj fs =>
      if hashable k then
        .ok (((fs.find? (fun p => keyEq (.str p.1) k)).map Prod.snd).getD d)
      else .error "TypeError"
  | _ => .error "AttributeError"

/-- Python dict.items(): the field list in document order; raises
AttributeError on a non-dict. -/
def pyItems : Json → Except String (List (String × Json))
  | .obj fs => .ok fs
  | _ => .error "AttributeError"

/-- Python iteration over a value (for ... in v): lists yield their
elements, dicts their keys, strings their characters; other values
raise TypeError. -/
def pyIter : Json → Except String (List Json)
  | .arr xs => .ok xs
  | .obj fs => .ok (fs.map (fun p => Json.str p.1))
  | .str s => .ok (s.data.map (fun c => Json.str ⟨[c]⟩))
  | _ => .error "TypeError"

/-- Python dict upsert result['schedules'][date] = inner: replace in
place when the key is already present, append otherwise. -/
def upsert {α : Type} (m : List (Json × α)) (k : Json) (v : α) : List (Json × α) :=
  if m.any (fun p => keyEq p.1 k) then
    m.map (fun p => if keyEq p.1 k then (p.1, v) else p)
  else m ++ [(k, v)]

/-! Time formatting (source lines 30-38).  format_time replaces every
T by a space, parses the result with datetime.fromisoformat, and
renders hour and minute zero-padded; any parse failure returns the
input unchanged.  The parser below models fromisoformat on the shapes
the pipeline meets: a four-digit year, two-digit month and day with
hyphens, optionally a single separator character followed by a time
HH, HH:MM or HH:MM:SS, all range-checked; fractional seconds and UTC
offsets are not modelled. -/

/-- Decimal digit test on a character. -/
def isDigitCh (c : Char) : Bool := 48 ≤ c.toNat && c.toNat ≤ 57

/-- Value of a decimal digit character. -/
def dval (c : Char) : Nat := c.toNat - 48

/-- Decimal digit character of a value below ten. -/
def dchar (d : Nat) : Char := Char.ofNat (48 + d)

/-- Parse exactly two decimal digits, returning the value and rest. -/
def parse2 : List Char → Option (Nat × List Char)
  | a :: b :: rest =>
      if isDigitCh a && isDigitCh b then some (10 * dval a + dval b, rest) else none
  | _ => none

/-- Parse exactly four decimal digits, returning the value and rest. -/
def parse4 (cs : List Char) : Option (Nat × List Char) :=
  match parse2 cs with
  | none => none
  | some (hi, r1) =>
    match parse2 r1 with
    | none => none
    | some (lo, r2) => some (100 * hi + lo, r2)

/-- Consume one expected character. -/
def expectChar (c : Char) : List Char → Option (List Char)
  | x :: rest => if x = c then some rest else none
  | [] => none

/-- Parse the time part HH, HH:MM or HH:MM:SS, consuming the whole
remainder. -/
def parseTimePart (cs : List Char) : Option (Nat × Nat × Nat) :=
  match parse2 cs with
  | none => none
  | some (hh, r) =>
    match r with
    | [] => some (hh, 0, 0)
    | ':' :: r2 =>
      match parse2 r2 with
      | none => none
      | some (mi, r3) =>
        match r3 with
        | [] => some (hh, mi, 0)
        | ':' :: r4 =>
          match parse2 r4 with
          | none => none
          | some (ss, r5) => if r5.isEmpty then some (hh, mi, ss) else none
        | _ => none
    | _ => none

/-- Gregorian leap year test, as datetime validates dates. -/
def leapYear (y : Nat) : Bool := (y % 4 == 0 && y % 100 != 0) || y % 400 == 0

/-- Days in a month, as datetime validates dates. -/
def daysInMonth (y mo : Nat) : Nat :=
  if mo = 2 then (if leapYear y then 29 else 28)
  else if mo = 4 || mo = 6 || mo = 9 || mo = 11 then 30
  else 31

/-- Range validation datetime performs on its components. -/
def validDT (y mo d hh mi ss : Nat) : Bool :=
  1 ≤ y && y ≤ 9999 && 1 ≤ mo && mo ≤ 12 && 1 ≤ d && d ≤ daysInMonth y mo &&
    hh ≤ 23 && mi ≤ 59 && ss ≤ 59

/-- Model of datetime.fromisoformat on a character list: date, then
optionally one separator character and a time part. -/
def parsePyIso (cs : List Char) : Option (Nat × Nat × Nat × Nat × Nat × Nat) :=
  match parse4 cs with
  | none => none
  | some (y, r1) =>
    match expectChar '-' r1 with
    | none => none
    | some r2 =>
      match parse2 r2 with
      | none => none
      | some (mo, r3) =>
        match expectChar '-' r3 with
        | none => none
        | some r4 =>
          match parse2 r4 with
          | none => none
          | some (d, r5) =>
            match r5 with
            | [] =>
                if validDT y mo d 0 0 0 then some (y, mo, d, 0, 0, 0) else none
            | _ :: timeCs =>
              match parseTimePart timeCs with
              | none => none
              | some (hh, mi, ss) =>
                  if validDT y mo d hh mi ss then some (y, mo, d, hh, mi, ss) else none

/-- Zero-padded two-digit rendering, as strftime with H and M does. -/
def twoDigits (n : Nat) : String := ⟨[dchar (n / 10), dchar (n % 10)]⟩

/-- format_time (source lines 30-38): replace T by a space, parse,
render HH:MM; on failure return the input unchanged. -/
def format_time (time_str : String) : String :=
  match parsePyIso (time_str.data.map (fun c => if c = 'T' then ' ' else c)) with
  | some (_, _, _, hh, mi, _) => twoDigits hh ++ ":" ++ twoDigits mi
  | none => time_str

/-- format_time as applied to an arbitrary field value: on a non-string
the attribute access time_str.replace raises inside the try block, the
bare except catches it, and the value is returned unchanged. -/
def formatTimeJ : Json → Json
  | .str s => .str (format_time s)
  | v => v

/-! The aggregation pipeline (source lines 50-144), written with the
same structure as build_comprehensive_data: a staff-directory pass,
then one pass per schedule document, each pass iterating the staff
directory keys and collecting shifts and appointments. -/

/-- get_service_type (source lines 50-54). -/
def get_service_type (service_id : Json) (calendar_data : Json) : Except String Json :=
  match pyGet calendar_data "services" (.obj []) with
  | .error e => .error e
  | .ok servicesTop =>
    match pyGet servicesTop "servicesById" (.obj []) with
    | .error e => .error e
    | .ok services =>
      match pyGet services (pyStr service_id) (.obj []) with
      | .error e => .error e
      | .ok service => pyGet service "name" (.str "Unknown Service")

/-- Staff display-name composition (source lines 71-73): firstName
with default Unknown, lastName with default empty and a falsy value
collapsed to the empty string, joined and stripped. -/
def staffNameOf (staff_info : Json) : Except String String :=
  match pyGet staff_info "firstName" (.str "Unknown") with
  | .error e => .error e
  | .ok first_name =>
    match pyGet staff_info "lastName" (.str "") with
    | .error e => .error e
    | .ok lastRaw =>
      let last_name := if truthy lastRaw then lastRaw else Json.str ""
      .ok (pyStrip (pyStr first_name ++ " " ++ pyStr last_name))

/-- Staff directory build (source lines 69-79): keep entries whose
serviceProvider field is truthy, in registry order. -/
def buildStaff : List (String × Json) → Except String (List (String × Json))
  | [] => .ok []
  | (staff_id, staff_info) :: rest =>
    match pyGet staff_info "serviceProvider" (.bool false) with
    | .error e => .error e
    | .ok flag =>
      if truthy flag then
        match staffNameOf staff_info with
        | .error e => .error e
        | .ok full_name =>
          match pyGet staff_info "email" (.str "No email") with
          | .error e => .error e
          | .ok email =>
            match buildStaff rest with
            | .error e => .error e
            | .ok restOut =>
              .ok ((staff_id,
                Json.obj [("id", .str staff_id), ("name", .str full_name),
                  ("email", email)]) :: restOut)
      else buildStaff rest

/-- One shift entry (source lines 111-116): formatted start and end,
and locationId defaulted to the integer 1. -/
def shiftEntry (shift : Json) : Except String Json :=
  match pyGet shift "startAtLocal" (.str "") with
  | .error e => .error e
  | .ok st =>
    match pyGet shift "endAtLocal" (.str "") with
    | .error e => .error e
    | .ok en =>
      match pyGet shift "locationId" (.num 1) with
      | .error e => .error e
      | .ok loc =>
        .ok (.obj [("start", formatTimeJ st), ("end", formatTimeJ en),
          ("location_id", loc)])

/-- The shift list of one staff member for the day. -/
def buildShifts : List Json → Except String (List Json)
  | [] => .ok []
  | shift :: rest =>
    match shiftEntry shift with
    | .error e => .error e
    | .ok entry =>
      match buildShifts rest with
      | .error e => .error e
      | .ok restOut => .ok (entry :: restOut)

/-- Client display-name composition (source lines 124-125): firstName
with default empty — unlike the staff rule — lastName with default
empty and a falsy value collapsed to empty, joined and stripped. -/
def clientNameOf (client : Json) : Except String String :=
  match pyGet client "firstName" (.str "") with
  | .error e => .error e
  | .ok cf =>
    match pyGet client "lastName" (.str "") with
    | .error e => .error e
    | .ok clRaw =>
      let cl := if truthy clRaw then clRaw else Json.str ""
      .ok (pyStrip (pyStr cf ++ " " ++ pyStr cl))

/-- The client_name record field (source line 133): an empty composed
name falls back to the sentinel. -/
def clientNameField (n : String) : String :=
  if n = "" then "Unknown Client" else n

/-- Records contributed by the parts of one appointment to one staff
member (source lines 120-137). -/
def partsFor (staff_id : String) (calendar_data : Json) (appointment : Json) :
    List Json → Except String (List Json)
  | [] => .ok []
  | part :: restParts =>
    match pyGet part "staffId" (.str "") with
    | .error e => .error e
    | .ok sidRaw =>
      if pyStr sidRaw = staff_id then
        match pyGet appointment "client" (.obj []) with
        | .error e => .error e
        | .ok client =>
          match clientNameOf client with
          | .error e => .error e
          | .ok client_name =>
            match pyGet part "serviceId" (.str "") with
            | .error e => .error e
            | .ok serviceId =>
              match get_service_type serviceId calendar_data with
              | .error e => .error e
              | .ok service_type =>
                match pyGet part "startAtLocal" (.str "") with
                | .error e => .error e
                | .ok st =>
                  match pyGet part "endAtLocal" (.str "") with
                  | .error e => .error e
                  | .ok en =>
                    match pyGet client "email" (.str "") with
                    | .error e => .error e
                    | .ok cemail =>
                      match pyGet appointment "totalPrice" (.str "0") with
                      | .error e => .error e
                      | .ok price =>
                        match pyGet appointment "workflowStatus" (.str "Unknown") with
                        | .error e => .error e
                        | .ok status =>
                          match partsFor staff_id calendar_data appointment restParts with
                          | .error e => .error e
                          | .ok restRecs =>
                            .ok (Json.obj [("start", formatTimeJ st),
                              ("end", formatTimeJ en),
                              ("service", service_type),
                              ("client_name", .str (clientNameField client_name)),
                              ("client_email", cemail),
                              ("price", price),
                              ("status", status)] :: restRecs)
      else partsFor staff_id calendar_data appointment restParts

/-- Appointment records of one staff member across the day's
appointment collection, in encounter order (source lines 119-137). -/
def apptsForStaff (staff_id : String) (calendar_data : Json) :
    List (String × Json) → Except String (List Json)
  | [] => .ok []
  | (_, appointment) :: rest =>
    match pyGet appointment "appointmentParts" (.arr []) with
    | .error e => .error e
    | .ok partsJ =>
      match pyIter partsJ with
      | .error e => .error e
      | .ok parts =>
        match partsFor staff_id calendar_data appointment parts with
        | .error e => .error e
        | .ok recs =>
          match apptsForStaff staff_id calendar_data rest with
          | .error e => .error e
          | .ok restRecs => .ok (recs ++ restRecs)

/-! The appointment sort (source line 140): Python list.sort with key
x['start'], a stable sort by Python-less-than on the key values.  The
model computes the keys first, as CPython does, then sorts stably; the
sorted result agrees with Timsort whenever all key comparisons are
defined, which is the only case in which Python returns at all. -/

/-- Subscript x['start'] on a record (raises on a non-dict or a
missing key). -/
def startKey (r : Json) : Except String Json :=
  match r with
  | .obj fs =>
    match lookupF fs "start" with
    | some v => .ok v
    | none => .error "KeyError"
  | _ => .error "TypeError"

/-- Lexicographic less-than on character lists by code point, the
order Python uses on strings. -/
def strLtChars : List Char → List Char → Bool
  | [], [] => false
  | [], _ :: _ => true
  | _ :: _, [] => false
  | a :: as, b :: bs =>
    if a.toNat < b.toNat then true
    else if b.toNat < a.toNat then false
    else strLtChars as bs

/-- Python less-than on strings. -/
def pyStrLt (a b : String) : Bool := strLtChars a.data b.data

/-- Python less-than on sort keys.  Strings compare lexicographically
by code point, numbers and booleans numerically; other combinations
raise TypeError (Python list-to-list comparison is not modelled). -/
def pyLt : Json → Json → Except String Bool
  | .str a, .str b => .ok (pyStrLt a b)
  | .num a, .num b => .ok (decide (a < b))
  | .num a, .bool b => .ok (decide (a < (if b then 1 else 0)))
  | .bool a, .num b => .ok (decide ((if a then (1 : Int) else 0) < b))
  | .bool a, .bool b => .ok (decide ((if a then (1 : Int) else 0) < (if b then 1 else 0)))
  | _, _ => .error "TypeError"

/-- Pair each record with its sort key, in list order. -/
def mapKeys : List Json → Except String (List (Json × Json))
  | [] => .ok []
  | r :: rest =>
    match startKey r with
    | .error e => .error e
    | .ok k =>
      match mapKeys rest with
      | .error e => .error e
      | .ok ks => .ok ((k, r) :: ks)

/-- Stable insertion of a keyed record: it goes before the first
strictly greater key, hence after every equal key already placed. -/
def insortK (x : Json × Json) : List (Json × Json) → Except String (List (Json × Json))
  | [] => .ok [x]
  | y :: ys =>
    match pyLt x.1 y.1 with
    | .error e => .error e
    | .ok true => .ok (x :: y :: ys)
    | .ok false =>
      match insortK x ys with
      | .error e => .error e
      | .ok r => .ok (y :: r)

/-- Stable sort of the keyed records by left fold of insertions. -/
def sortK : List (Json × Json) → List (Json × Json) → Except String (List (Json × Json))
  | [], acc => .ok acc
  | x :: xs, acc =>
    match insortK x acc with
    | .error e => .error e
    | .ok acc2 => sortK xs acc2

/-- The appointment sort of source line 140. -/
def sortAppointments (l : List Json) : Except String (List Json) :=
  match mapKeys l with
  | .error e => .error e
  | .ok kl =>
    match sortK kl [] with
    | .error e => .error e
    | .ok sorted => .ok (sorted.map Prod.snd)

/-- The day schedule of each service provider (source lines 101-142):
shifts from the shifts-by-staff-and-day mapping, appointments via the
per-part join, sorted by formatted start. -/
def perStaffSchedules (date : Json) (shifts_data : Json) (appointments_data : Json)
    (calendar_data : Json) : List String → Except String (List (String × Json))
  | [] => .ok []
  | staff_id :: rest =>
    match pyGet shifts_data staff_id (.obj []) with
    | .error e => .error e
    | .ok staff_shifts =>
      match pyGetK staff_shifts date (.arr []) with
      | .error e => .error e
      | .ok dayShiftsJ =>
        match pyIter dayShiftsJ with
        | .error e => .error e
        | .ok day_shifts =>
          match buildShifts day_shifts with
          | .error e => .error e
          | .ok shifts =>
            match pyItems appointments_data with
            | .error e => .error e
            | .ok appt_items =>
              match apptsForStaff staff_id calendar_data appt_items with
              | .error e => .error e
              | .ok appts =>
                match sortAppointments appts with
                | .error e => .error e
                | .ok sortedAppts =>
                  match perStaffSchedules date shifts_data appointments_data calendar_data rest with
                  | .error e => .error e
                  | .ok restOut =>
                    .ok ((staff_id,
                      Json.obj [("shifts", .arr shifts),
                        ("appointments", .arr sortedAppts)]) :: restOut)

/-- Processing of one schedule document (source lines 87-142): a falsy
document is skipped; otherwise its date, shifts and appointments are
read and the per-staff day schedules are stored under the date key,
overwriting any schedule a previous document stored for that date. -/
def processDoc (staffIds : List String) (calendar_data : Json)
    (acc : List (Json × List (String × Json))) (doc : Json) :
    Except String (List (Json × List (String × Json))) :=
  if truthy doc = false then .ok acc
  else
    match pyGet doc "date" (.str "Unknown") with
    | .error e => .error e
    | .ok date =>
      match pyGet doc "shiftsByStaffIdAndDay" (.obj []) with
      | .error e => .error e
      | .ok shifts_data =>
        match pyGet doc "appointments" (.obj []) with
        | .error e => .error e
        | .ok apptsTop =>
          match pyGet apptsTop "byId" (.obj []) with
          | .error e => .error e
          | .ok appointments_data =>
            if hashable date = false then .error "TypeError"
            else
              match perStaffSchedules date shifts_data appointments_data
                  calendar_data staffIds with
              | .error e => .error e
              | .ok inner => .ok (upsert acc date inner)

/-- Left-to-right processing of all schedule documents. -/
def schedulesOf (staffIds : List String) (calendar_data : Json) :
    List Json → List (Json × List (String × Json)) →
    Except String (List (Json × List (String × Json)))
  | [], acc => .ok acc
  | doc :: rest, acc =>
    match processDoc staffIds calendar_data acc doc with
    | .error e => .error e
    | .ok acc2 => schedulesOf staffIds calendar_data rest acc2

/-- The staff-registry extraction chain of source line 60. -/
def staffDataOf (app_startup_data : Json) : Except String Json :=
  match pyGet app_startup_data "auth" (.obj []) with
  | .error e => .error e
  | .ok auth =>
    match pyGet auth "sharedData" (.obj []) with
    | .error e => .error e
    | .ok sharedData =>
      match pyGet sharedData "selectors" (.obj []) with
      | .error e => .error e
      | .ok selectors =>
        match pyGet selectors "staff" (.obj []) with
        | .error e => .error e
        | .ok staffTop => pyGet staffTop "byId" (.obj [])

/-- The comprehensive structure: the staff directory and the composite
schedule map from date to staff id to day schedule, both in insertion
order. -/
structure BuildResult where
  staff : List (String × Json)
  schedules : List (Json × List (String × Json))

/-- build_comprehensive_data (source lines 56-144).  The schedule
documents stand for the parsed contents of the schedule files in file
order, and calendar_file_data for the parsed service-catalog file,
both loaded by the excluded I/O collaborator. -/
def build_comprehensive_data (app_startup_data : Json) (schedule_docs : List Json)
    (calendar_file_data : Json) : Except String BuildResult :=
  match staffDataOf app_startup_data with
  | .error e => .error e
  | .ok staff_data =>
    match pyItems staff_data with
    | .error e => .error e
    | .ok staff_items =>
      match buildStaff staff_items with
      | .error e => .error e
      | .ok staffList =>
        let calendar_data := if schedule_docs.isEmpty then Json.obj [] else calendar_file_data
        match schedulesOf (staffList.map Prod.fst) calendar_data schedule_docs [] with
        | .error e => .error e
        | .ok scheds => .ok ⟨staffList, scheds⟩

/-! The staff-directory enumeration used for display (source lines
151-152): sorted(data['staff'].items(), key=lambda x: int(x[0])). -/

/-- Digit-fold helper of Python int parsing. -/
def digitsValAux : Nat → List Char → Option Nat
  | acc, [] => some acc
  | acc, c :: rest =>
    if isDigitCh c then digitsValAux (10 * acc + dval c) rest else none

/-- Value of a nonempty all-digit character list. -/
def digitsVal (cs : List Char) : Option Nat :=
  if cs.isEmpty then none else digitsValAux 0 cs

/-- Python int() on a string: surrounding whitespace stripped, an
optional sign, then decimal digits; anything else raises ValueError
(digit-group underscores are not modelled). -/
def pyInt (s : String) : Except String Int :=
  match (pyStrip s).data with
  | '+' :: ds =>
    match digitsVal ds with
    | some n => .ok (Int.ofNat n)
    | none => .error "ValueError"
  | '-' :: ds =>
    match digitsVal ds with
    | some n => .ok (-(Int.ofNat n))
    | none => .error "ValueError"
  | ds =>
    match digitsVal ds with
    | some n => .ok (Int.ofNat n)
    | none => .error "ValueError"

/-- Pair each staff entry with int(id), in list order, as sorted()
computes its keys. -/
def mapIntKeys : List (String × Json) → Except String (List (Int × (String × Json)))
  | [] => .ok []
  | p :: rest =>
    match pyInt p.1 with
    | .error e => .error e
    | .ok k =>
      match mapIntKeys rest with
      | .error e => .error e
      | .ok ks => .ok ((k, p) :: ks)

/-- Stable insertion by integer key. -/
def insortInt {α : Type} (x : Int × α) : List (Int × α) → List (Int × α)
  | [] => [x]
  | y :: ys => if x.1 < y.1 then x :: y :: ys else y :: insortInt x ys

/-- Stable sort by integer key. -/
def sortOnInt {α : Type} (l : List (Int × α)) : List (Int × α) :=
  l.foldl (fun acc x => insortInt x acc) []

/-- The sorted staff enumeration of source line 152. -/
def sorted_staff (staff : List (String × Json)) : Except String (List (String × Json)) :=
  match mapIntKeys staff with
  | .error e => .error e
  | .ok kl => .ok ((sortOnInt kl).map Prod.snd)

/-! Derived predicates and concrete documents used by the statements
below. -/

/-- Whether a part is attributed to the given staff id by the test of
source line 123 (str of the staffId field equals the id). -/
def matchesB (sid : String) (part : Json) : Bool :=
  match pyGet part "staffId" (.str "") with
  | .ok v => pyStr v == sid
  | .error _ => false

/-- The raw serviceProvider field of a registry record, when the
record is an object carrying one. -/
def flagLookup (info : Json) : Option Json :=
  match info with
  | .obj fs => lookupF fs "serviceProvider"
  | _ => none

/-- Record order used by the sort: the later record's start key is not
Python-less-than the earlier one's. -/
def recLe (a b : Json) : Prop :=
  ∀ ka kb, startKey a = .ok ka → startKey b = .ok kb → pyLt kb ka ≠ .ok true

/-- Record order on string start keys, ascending. -/
def strStartLe (a b : Json) : Prop :=
  ∃ sa sb, startKey a = .ok (Json.str sa) ∧ startKey b = .ok (Json.str sb) ∧
    pyStrLt sb sa = false

/-- Ascending numeric order of staff ids via Python int(). -/
def numIdLe (p q : String × Json) : Prop :=
  ∃ x y, pyInt p.1 = .ok x ∧ pyInt q.1 = .ok y ∧ x ≤ y

/-- An inner schedule map as produced by the per-staff pass for some
day document (with the fixed staff ids and catalog of the run). -/
def FromPerStaff (ids : List String) (cal : Json) (inner : List (String × Json)) : Prop :=
  ∃ date sd ad, perStaffSchedules date sd ad cal ids = .ok inner

/-- Two-digit character rendering of a value below one hundred. -/
def twoDigitsL (n : Nat) : List Char := [dchar (n / 10), dchar (n % 10)]

/-- Four-digit character rendering of a value below ten thousand. -/
def fourDigitsL (n : Nat) : List Char := twoDigitsL (n / 100) ++ twoDigitsL (n % 100)

/-- A well-formed ISO-8601 timestamp string with the given components
and separator. -/
def renderIso (y mo d : Nat) (sep : Char) (hh mi ss : Nat) : String :=
  ⟨fourDigitsL y ++ '-' :: (twoDigitsL mo ++ '-' :: (twoDigitsL d ++ sep ::
    (twoDigitsL hh ++ ':' :: (twoDigitsL mi ++ ':' :: twoDigitsL ss))))⟩

/-! Concrete documents for the closed statements. -/

/-- A startup document with one service provider, id 11. -/
def cxApp : Json := .obj [("auth", .obj [("sharedData", .obj [("selectors", .obj
  [("staff", .obj [("byId", .obj [("11", .obj [("serviceProvider", .bool true),
  ("firstName", .str "Sasha")])])])])])])]

/-- A service catalog resolving ids A and B. -/
def cxCal : Json := .obj [("services", .obj [("servicesById", .obj
  [("A", .obj [("name", .str "SvcA")]), ("B", .obj [("name", .str "SvcB")])])])]

/-- First encountered part: service A, raw start late on July 25. -/
def cxPart1 : Json := .obj [("staffId", .str "11"),
  ("startAtLocal", .str "2025-07-25T23:00:00"),
  ("endAtLocal", .str "2025-07-25T23:30:00"), ("serviceId", .str "A")]

/-- Second encountered part: service B, raw start early on July 26,
lexicographically after the first part's raw start. -/
def cxPart2 : Json := .obj [("staffId", .str "11"),
  ("startAtLocal", .str "2025-07-26T01:00:00"),
  ("endAtLocal", .str "2025-07-26T01:30:00"), ("serviceId", .str "B")]

/-- A two-part appointment for staff 11. -/
def cxAppt : Json := .obj [("appointmentParts", .arr [cxPart1, cxPart2]),
  ("client", .obj [("firstName", .str "Jo")]),
  ("totalPrice", .str "100"), ("workflowStatus", .str "booked")]

/-- The day snapshot containing the two-part appointment. -/
def cxDoc : Json := .obj [("date", .str "2025-07-26"),
  ("shiftsByStaffIdAndDay", .obj []),
  ("appointments", .obj [("byId", .obj [("a1", cxAppt)])])]

/-- The record produced from the first part (service A). -/
def cxRec1 : Json := .obj [("start", .str "23:00"), ("end", .str "23:30"),
  ("service", .str "SvcA"), ("client_name", .str "Jo"), ("client_email", .str ""),
  ("price", .str "100"), ("status", .str "booked")]

/-- The record produced from the second part (service B). -/
def cxRec2 : Json := .obj [("start", .str "01:00"), ("end", .str "01:30"),
  ("service", .str "SvcB"), ("client_name", .str "Jo"), ("client_email", .str ""),
  ("price", .str "100"), ("status", .str "booked")]

/-- A part naming staff id 99, an id absent from the staff
directory. -/
def c2Part : Json := .obj [("staffId", .str "99"),
  ("startAtLocal", .str "2025-07-26T09:00:00"),
  ("endAtLocal", .str "2025-07-26T09:30:00"), ("serviceId", .str "A")]

/-- A one-part appointment whose only part names staff id 99. -/
def c2Appt : Json := .obj [("appointmentParts", .arr [c2Part]),
  ("client", .obj [("firstName", .str "Jo")]),
  ("totalPrice", .str "50"), ("workflowStatus", .str "booked")]

/-- A day snapshot containing only that appointment. -/
def c2Doc : Json := .obj [("date", .str "2025-07-26"),
  ("shiftsByStaffIdAndDay", .obj []),
  ("appointments", .obj [("byId", .obj [("a1", c2Appt)])])]

/-- A part for staff 11 with no serviceId. -/
def c7Part : Json := .obj [("staffId", .str "11"),
  ("startAtLocal", .str "2025-07-26T09:00:00"),
  ("endAtLocal", .str "2025-07-26T09:30:00")]

/-- An appointment whose client has no firstName and lastName X. -/
def c7Appt : Json := .obj [("appointmentParts", .arr [c7Part]),
  ("client", .obj [("lastName", .str "X")]),
  ("totalPrice", .str "50"), ("workflowStatus", .str "booked")]

/-- The record the joiner produces for that appointment. -/
def c7Rec : Json := .obj [("start", .str "09:00"), ("end", .str "09:30"),
  ("service", .str "Unknown Service"), ("client_name", .str "X"),
  ("client_email", .str ""), ("price", .str "50"), ("status", .str "booked")]

/-- A provider registry record with no name fields. -/
def c8Info : Json := .obj [("serviceProvider", .bool true)]

/-- A minimal truthy day snapshot carrying only a date. -/
def wDoc : Json := .obj [("date", .str "2025-07-26")]

/-- The staff-directory entry the build produces for staff 11. -/
def cxStaffEntry : Json := .obj [("id", .str "11"), ("name", .str "Sasha"),
  ("email", .str "No email")]

/-- The day schedule the build produces for staff 11 from cxDoc. -/
def cxDay : Json := .obj [("shifts", .arr []), ("appointments", .arr [cxRec2, cxRec1])]

/-- The full build result on the two-part-appointment input. -/
def cxRes : BuildResult :=
  ⟨[("11", cxStaffEntry)], [(.str "2025-07-26", [("11", cxDay)])]⟩

/-! Helper lemmas. -/

theorem strLtChars_irrefl : ∀ l : List Char, strLtChars l l = false := by
  intro l
  induction l with
  | nil => rfl
  | cons a as ih => simp [strLtChars, ih]

theorem strLtChars_asymm : ∀ a b : List Char, strLtChars a b = true → strLtChars b a = false := by
  intro a
  induction a with
  | nil =>
    intro b h
    cases b with
    | nil => simp [strLtChars] at h
    | cons c cs => simp [strLtChars]
  | cons a as ih =>
    intro b h
    cases b with
    | nil => simp [strLtChars] at h
    | cons c cs =>
      simp only [strLtChars] at h ⊢
      by_cases h1 : a.toNat < c.toNat
      · have h2 : ¬ c.toNat < a.toNat := by omega
        simp [h1, h2]
      · simp only [if_neg h1] at h
        by_cases h2 : c.toNat < a.toNat
        · simp [h2] at h
        · simp only [if_neg h2] at h ⊢
          simp [h1, ih cs h]

theorem strLtChars_le_trans :
    ∀ a b c : List Char, strLtChars b a = false → strLtChars c b = false →
      strLtChars c a = false := by
  intro a
  induction a with
  | nil =>
    intro b c h1 h2
    cases c with
    | nil => rfl
    | cons z zs => rfl
  | cons x xs ih =>
    intro b c h1 h2
    cases b with
    | nil => simp [strLtChars] at h1
    | cons y ys =>
      cases c with
      | nil => simp [strLtChars] at h2
      | cons z zs =>
        simp only [strLtChars] at h1 h2
        by_cases hyx : y.toNat < x.toNat
        · simp [hyx] at h1
        · simp only [if_neg hyx] at h1
          by_cases hzy : z.toNat < y.toNat
          · simp [hzy] at h2
          · simp only [if_neg hzy] at h2
            have hzx : ¬ z.toNat < x.toNat := by omega
            simp only [strLtChars, if_neg hzx]
            by_cases hxz : x.toNat < z.toNat
            · simp [hxz]
            · simp only [if_neg hxz]
              by_cases hxy : x.toNat < y.toNat
              · omega
              · simp only [if_neg hxy] at h1
                by_cases hyz : y.toNat < z.toNat
                · omega
                · simp only [if_neg hyz] at h2
                  exact ih ys zs h1 h2

theorem pyLt_asymm : ∀ x y : Json, pyLt x y = .ok true → pyLt y x = .ok false := by
  intro x y h
  cases x <;> cases y <;> simp [pyLt, pyStrLt] at h ⊢
  case bool.bool a b => cases a <;> cases b <;> simp at h ⊢
  case bool.num a b => cases a <;> simp at h ⊢ <;> omega
  case num.bool a b => cases b <;> simp at h ⊢ <;> omega
  case num.num a b => omega
  case str.str a b => exact strLtChars_asymm _ _ h

theorem keyEq_refl : ∀ d : Json, hashable d = true → keyEq d d = true := by
  intro d h
  cases d <;> simp [hashable, keyEq] at h ⊢

theorem chain'_head_rel {α : Type} {R : α → α → Prop} :
    ∀ (a : α) (l : List α),
      (∀ x y z, x ∈ a :: l → y ∈ a :: l → z ∈ a :: l → R x y → R y z → R x z) →
      List.Chain' R (a :: l) → ∀ b ∈ l, R a b := by
  intro a l
  induction l generalizing a with
  | nil => intro _ _ b hb; cases hb
  | cons c t ih =>
    intro tr h b hb
    have hac : R a c := (List.chain'_cons.mp h).1
    cases hb with
    | head => exact hac
    | tail _ hbt =>
      have hcb : R c b := by
        refine ih c (fun x y z hx hy hz hxy hyz => ?_) (List.chain'_cons.mp h).2 b hbt
        exact tr x y z (List.mem_cons_of_mem a hx) (List.mem_cons_of_mem a hy)
          (List.mem_cons_of_mem a hz) hxy hyz
      exact tr a c b (List.mem_cons_self a _) (List.mem_cons_of_mem a (List.mem_cons_self c t))
        (List.mem_cons_of_mem a (List.mem_cons_of_mem c hbt)) hac hcb

theorem chain'_to_pairwise {α : Type} {R : α → α → Prop} :
    ∀ l : List α,
      (∀ x y z, x ∈ l → y ∈ l → z ∈ l → R x y → R y z → R x z) →
      List.Chain' R l → List.Pairwise R l := by
  intro l
  induction l with
  | nil => intro _ _; exact List.Pairwise.nil
  | cons a t ih =>
    intro tr h
    refine List.Pairwise.cons (chain'_head_rel a t tr h) ?_
    refine ih (fun x y z hx hy hz hxy hyz => ?_) (List.chain'_cons'.mp h).2
    exact tr x y z (List.mem_cons_of_mem a hx) (List.mem_cons_of_mem a hy)
      (List.mem_cons_of_mem a hz) hxy hyz

theorem dchar_isDigit : ∀ d, d < 10 → isDigitCh (dchar d) = true := by decide

theorem dchar_val : ∀ d, d < 10 → dval (dchar d) = d := by decide

theorem dchar_ne_T : ∀ d, d < 10 → ¬ dchar d = 'T' := by decide

theorem parse2_round (n : Nat) (h : n < 100) (rest : List Char) :
    parse2 (twoDigitsL n ++ rest) = some (n, rest) := by
  have h1 : n / 10 < 10 := by omega
  have h2 : n % 10 < 10 := by omega
  simp [twoDigitsL, parse2, dchar_isDigit _ h1, dchar_isDigit _ h2,
    dchar_val _ h1, dchar_val _ h2]
  omega

theorem parse4_round (n : Nat) (h : n < 10000) (rest : List Char) :
    parse4 (fourDigitsL n ++ rest) = some (n, rest) := by
  have h1 : n / 100 < 100 := by omega
  have h2 : n % 100 < 100 := by omega
  rw [fourDigitsL, List.append_assoc]
  simp only [parse4, parse2_round _ h1, parse2_round _ h2]
  simp
  omega

theorem mapT_twoDigits (n : Nat) (h : n < 100) :
    (twoDigitsL n).map (fun c => if c = 'T' then ' ' else c) = twoDigitsL n := by
  have h1 : n / 10 < 10 := by omega
  have h2 : n % 10 < 10 := by omega
  simp [twoDigitsL, dchar_ne_T _ h1, dchar_ne_T _ h2]

theorem mapT_fourDigits (n : Nat) (h : n < 10000) :
    (fourDigitsL n).map (fun c => if c = 'T' then ' ' else c) = fourDigitsL n := by
  have h1 : n / 100 < 100 := by omega
  have h2 : n % 100 < 100 := by omega
  simp only [fourDigitsL, List.map_append, mapT_twoDigits _ h1, mapT_twoDigits _ h2]

theorem expectChar_cons_self (c : Char) (rest : List Char) :
    expectChar c (c :: rest) = some rest := by
  simp [expectChar]

theorem daysInMonth_le (y mo : Nat) : daysInMonth y mo ≤ 31 := by
  unfold daysInMonth
  split_ifs <;> omega

theorem format_time_render (y mo d hh mi ss : Nat) (sep : Char)
    (hv : validDT y mo d hh mi ss = true) (hsep : sep = 'T' ∨ sep = ' ') :
    format_time (renderIso y mo d sep hh mi ss) = twoDigits hh ++ ":" ++ twoDigits mi := by
  have hv0 := hv
  simp only [validDT, Bool.and_eq_true, decide_eq_true_eq] at hv
  have hdm := daysInMonth_le y mo
  have hy : y < 10000 := by omega
  have hmo : mo < 100 := by omega
  have hd : d < 100 := by omega
  have hhh : hh < 100 := by omega
  have hmi : mi < 100 := by omega
  have hss : ss < 100 := by omega
  have hdata : (renderIso y mo d sep hh mi ss).data =
      fourDigitsL y ++ '-' :: (twoDigitsL mo ++ '-' :: (twoDigitsL d ++ sep ::
        (twoDigitsL hh ++ ':' :: (twoDigitsL mi ++ ':' :: twoDigitsL ss)))) := rfl
  have hsep2 : (if sep = 'T' then ' ' else sep) = ' ' := by
    rcases hsep with h | h <;> simp [h]
  unfold format_time
  rw [hdata]
  simp only [List.map_append, List.map_cons, mapT_fourDigits y hy, mapT_twoDigits mo hmo,
    mapT_twoDigits d hd, mapT_twoDigits hh hhh, mapT_twoDigits mi hmi, mapT_twoDigits ss hss,
    hsep2]
  have hdash : (if ('-' : Char) = 'T' then ' ' else '-') = '-' := by decide
  have hcolon : (if (':' : Char) = 'T' then ' ' else ':') = ':' := by decide
  rw [hdash, hcolon]
  simp only [parsePyIso, parse4_round y hy]
  simp only [expectChar_cons_self]
  simp only [parse2_round mo hmo]
  simp only [expectChar_cons_self]
  simp only [parse2_round d hd]
  have hss2 : parse2 (twoDigitsL ss) = some (ss, []) := by
    have h := parse2_round ss hss []
    simpa using h
  simp only [parseTimePart, parse2_round hh hhh, parse2_round mi hmi, hss2]
  simp [hv0]

theorem pyStr_str (s : String) : pyStr (Json.str s) = s := rfl

theorem dropWhile_id_of_head (l : List Char)
    (h : ∀ c, l.head? = some c → isPySpace c = false) :
    l.dropWhile isPySpace = l := by
  cases l with
  | nil => rfl
  | cons c t =>
    have hc := h c rfl
    exact List.dropWhile_cons_of_neg (by simp [hc])

theorem pyStrip_eq_self (s : String)
    (h1 : ∀ c, s.data.head? = some c → isPySpace c = false)
    (h2 : ∀ c, s.data.getLast? = some c → isPySpace c = false) :
    pyStrip s = s := by
  unfold pyStrip
  rw [dropWhile_id_of_head _ h1]
  rw [dropWhile_id_of_head _ (fun c hc => h2 c (by rwa [List.getLast?_eq_head?_reverse]))]
  rw [List.reverse_reverse]

theorem pyStrip_space_pre (l : String)
    (h1 : ∀ c, l.data.head? = some c → isPySpace c = false)
    (h2 : ∀ c, l.data.getLast? = some c → isPySpace c = false) :
    pyStrip (" " ++ l) = l := by
  unfold pyStrip
  have hd : (" " ++ l).data = ' ' :: l.data := rfl
  rw [hd, List.dropWhile_cons_of_pos (by decide : (isPySpace ' ' = true))]
  rw [dropWhile_id_of_head _ h1]
  rw [dropWhile_id_of_head _ (fun c hc => h2 c (by rwa [List.getLast?_eq_head?_reverse]))]
  rw [List.reverse_reverse]

theorem data_ne_nil_of_ne_empty (s : String) (h : s ≠ "") : s.data ≠ [] := by
  intro hd
  apply h
  cases s
  simp only at hd
  subst hd
  rfl

theorem clientNameOf_lastOnly (l : String) (hne : l ≠ "")
    (h1 : ∀ c, l.data.head? = some c → isPySpace c = false)
    (h2 : ∀ c, l.data.getLast? = some c → isPySpace c = false) :
    clientNameOf (Json.obj [("lastName", Json.str l)]) = .ok l := by
  have ht : truthy (Json.str l) = true := by
    simp [truthy]
    exact hne
  have e1 : pyGet (Json.obj [("lastName", Json.str l)]) "firstName" (Json.str "") =
      .ok (Json.str "") := rfl
  have e2 : pyGet (Json.obj [("lastName", Json.str l)]) "lastName" (Json.str "") =
      .ok (Json.str l) := rfl
  unfold clientNameOf
  simp only [e1, e2, ht, if_pos, pyStr_str]
  have hpre : ("" : String) ++ " " ++ l = " " ++ l := rfl
  rw [hpre, pyStrip_space_pre l h1 h2]

theorem staffNameOf_lastOnly (l : String) (hne : l ≠ "")
    (h2 : ∀ c, l.data.getLast? = some c → isPySpace c = false) :
    staffNameOf (Json.obj [("lastName", Json.str l)]) = .ok ("Unknown " ++ l) := by
  have ht : truthy (Json.str l) = true := by
    simp [truthy]
    exact hne
  have e1 : pyGet (Json.obj [("lastName", Json.str l)]) "firstName" (Json.str "Unknown") =
      .ok (Json.str "Unknown") := rfl
  have e2 : pyGet (Json.obj [("lastName", Json.str l)]) "lastName" (Json.str "") =
      .ok (Json.str l) := rfl
  unfold staffNameOf
  simp only [e1, e2, ht, if_pos, pyStr_str]
  have hpre : ("Unknown" : String) ++ " " ++ l = "Unknown " ++ l := rfl
  rw [hpre]
  rw [pyStrip_eq_self ("Unknown " ++ l) ?hh ?hl]
  case hh =>
    intro c hc
    have : c = 'U' := by
      have : ("Unknown " ++ l).data.head? = some 'U' := rfl
      rw [this] at hc
      exact (Option.some.inj hc).symm
    subst this
    decide
  case hl =>
    intro c hc
    have hdata : ("Unknown " ++ l).data = "Unknown ".data ++ l.data := rfl
    rw [hdata, List.getLast?_append_of_ne_nil _ (data_ne_nil_of_ne_empty l hne)] at hc
    exact h2 c hc

theorem partsFor_spec (sid : String) (cal appt : Json) :
    ∀ ps recs, partsFor sid cal appt ps = .ok recs →
      recs.length = (ps.filter (matchesB sid)).length ∧
      ∀ r ∈ recs, ∃ fs price status, r = Json.obj fs ∧
        pyGet appt "totalPrice" (Json.str "0") = .ok price ∧
        pyGet appt "workflowStatus" (Json.str "Unknown") = .ok status ∧
        lookupF fs "price" = some price ∧ lookupF fs "status" = some status := by
  intro ps
  induction ps with
  | nil =>
    intro recs h
    simp only [partsFor] at h
    injection h with hinj
    subst hinj
    exact ⟨rfl, by intro r hr; cases hr⟩
  | cons part rest ih =>
    intro recs h
    simp only [partsFor] at h
    cases h1 : pyGet part "staffId" (Json.str "") with
    | error e => simp only [h1] at h; exact Except.noConfusion h
    | ok sidRaw =>
    simp only [h1] at h
    by_cases hm : pyStr sidRaw = sid
    · simp only [if_pos hm] at h
      cases h2 : pyGet appt "client" (Json.obj []) with
      | error e => simp only [h2] at h; exact Except.noConfusion h
      | ok client =>
      simp only [h2] at h
      cases h3 : clientNameOf client with
      | error e => simp only [h3] at h; exact Except.noConfusion h
      | ok client_name =>
      simp only [h3] at h
      cases h4 : pyGet part "serviceId" (Json.str "") with
      | error e => simp only [h4] at h; exact Except.noConfusion h
      | ok serviceId =>
      simp only [h4] at h
      cases h5 : get_service_type serviceId cal with
      | error e => simp only [h5] at h; exact Except.noConfusion h
      | ok service_type =>
      simp only [h5] at h
      cases h6 : pyGet part "startAtLocal" (Json.str "") with
      | error e => simp only [h6] at h; exact Except.noConfusion h
      | ok st =>
      simp only [h6] at h
      cases h7 : pyGet part "endAtLocal" (Json.str "") with
      | error e => simp only [h7] at h; exact Except.noConfusion h
      | ok en =>
      simp only [h7] at h
      cases h8 : pyGet client "email" (Json.str "") with
      | error e => simp only [h8] at h; exact Except.noConfusion h
      | ok cemail =>
      simp only [h8] at h
      cases h9 : pyGet appt "totalPrice" (Json.str "0") with
      | error e => simp only [h9] at h; exact Except.noConfusion h
      | ok price =>
      simp only [h9] at h
      cases h10 : pyGet appt "workflowStatus" (Json.str "Unknown") with
      | error e => simp only [h10] at h; exact Except.noConfusion h
      | ok status =>
      simp only [h10] at h
      cases h11 : partsFor sid cal appt rest with
      | error e => simp only [h11] at h; exact Except.noConfusion h
      | ok restRecs =>
      simp only [h11] at h
      injection h with hinj
      subst hinj
      have hmb : matchesB sid part = true := by
        simp [matchesB, h1, hm]
      obtain ⟨ihlen, ihrec⟩ := ih restRecs h11
      constructor
      · simp [List.filter_cons_of_pos, hmb, ihlen]
      · intro r hr
        cases hr with
        | head =>
          refine ⟨[("start", formatTimeJ st), ("end", formatTimeJ en),
            ("service", service_type), ("client_name", .str (clientNameField client_name)),
            ("client_email", cemail), ("price", price), ("status", status)],
            price, status, rfl, rfl, rfl, ?_, ?_⟩ <;> rfl
        | tail _ htail =>
          obtain ⟨fs, p2, s2, hr2, hp2, hs2, hl1, hl2⟩ := ihrec r htail
          rw [h9] at hp2
          rw [h10] at hs2
          exact ⟨fs, p2, s2, hr2, hp2, hs2, hl1, hl2⟩
    · simp only [if_neg hm] at h
      have hmb : matchesB sid part = false := by
        simp [matchesB, h1, hm]
      obtain ⟨ihlen, ihrec⟩ := ih recs h
      constructor
      · simp [List.filter_cons_of_neg, hmb, ihlen]
      · exact ihrec

theorem buildStaff_mem_src :
    ∀ items out, buildStaff items = .ok out →
      ∀ sid, sid ∈ out.map Prod.fst →
        ∃ info flag, (sid, info) ∈ items ∧
          pyGet info "serviceProvider" (Json.bool false) = .ok flag ∧
          truthy flag = true := by
  intro items
  induction items with
  | nil =>
    intro out h sid hsid
    simp only [buildStaff] at h
    injection h with hinj
    subst hinj
    cases hsid
  | cons p rest ih =>
    obtain ⟨pid, pinfo⟩ := p
    intro out h sid hsid
    simp only [buildStaff] at h
    cases hf : pyGet pinfo "serviceProvider" (Json.bool false) with
    | error e => simp only [hf] at h; exact Except.noConfusion h
    | ok flag =>
    simp only [hf] at h
    by_cases ht : truthy flag = true
    · rw [if_pos ht] at h
      cases hn : staffNameOf pinfo with
      | error e => simp only [hn] at h; exact Except.noConfusion h
      | ok full_name =>
      simp only [hn] at h
      cases he : pyGet pinfo "email" (Json.str "No email") with
      | error e => simp only [he] at h; exact Except.noConfusion h
      | ok email =>
      simp only [he] at h
      cases hr : buildStaff rest with
      | error e => simp only [hr] at h; exact Except.noConfusion h
      | ok restOut =>
      simp only [hr] at h
      injection h with hinj
      subst hinj
      simp only [List.map_cons, List.mem_cons] at hsid
      cases hsid with
      | inl hhead =>
        subst hhead
        exact ⟨pinfo, flag, List.mem_cons_self _ _, hf, ht⟩
      | inr htail =>
        obtain ⟨info, flag2, hmem, hg, htr⟩ := ih restOut hr sid htail
        exact ⟨info, flag2, List.mem_cons_of_mem _ hmem, hg, htr⟩
    · rw [if_neg ht] at h
      obtain ⟨info, flag2, hmem, hg, htr⟩ := ih out h sid hsid
      exact ⟨info, flag2, List.mem_cons_of_mem _ hmem, hg, htr⟩

theorem buildStaff_src_mem :
    ∀ items out, buildStaff items = .ok out →
      ∀ sid info, (sid, info) ∈ items → flagLookup info = some (Json.bool true) →
        sid ∈ out.map Prod.fst := by
  intro items
  induction items with
  | nil =>
    intro out h sid info hmem
    cases hmem
  | cons p rest ih =>
    obtain ⟨pid, pinfo⟩ := p
    intro out h sid info hmem hflag
    simp only [buildStaff] at h
    cases hf : pyGet pinfo "serviceProvider" (Json.bool false) with
    | error e => simp only [hf] at h; exact Except.noConfusion h
    | ok flag =>
    simp only [hf] at h
    by_cases ht : truthy flag = true
    · rw [if_pos ht] at h
      cases hn : staffNameOf pinfo with
      | error e => simp only [hn] at h; exact Except.noConfusion h
      | ok full_name =>
      simp only [hn] at h
      cases he : pyGet pinfo "email" (Json.str "No email") with
      | error e => simp only [he] at h; exact Except.noConfusion h
      | ok email =>
      simp only [he] at h
      cases hr : buildStaff rest with
      | error e => simp only [hr] at h; exact Except.noConfusion h
      | ok restOut =>
      simp only [hr] at h
      injection h with hinj
      subst hinj
      cases hmem with
      | head =>
        simp
      | tail _ htail =>
        simp only [List.map_cons, List.mem_cons]
        exact Or.inr (ih restOut hr sid info htail hflag)
    · rw [if_neg ht] at h
      cases hmem with
      | head =>
        exfalso
        apply ht
        cases pinfo with
        | obj fs =>
          simp only [flagLookup] at hflag
          simp only [pyGet, hflag, Option.getD_some] at hf
          injection hf with hflageq
          rw [← hflageq]
          rfl
        | null => simp [flagLookup] at hflag
        | bool b => simp [flagLookup] at hflag
        | num n => simp [flagLookup] at hflag
        | str s => simp [flagLookup] at hflag
        | arr xs => simp [flagLookup] at hflag
      | tail _ htail =>
        exact ih out h sid info htail hflag

theorem build_decomp :
    ∀ app docs cal res, build_comprehensive_data app docs cal = .ok res →
      ∃ sd items, staffDataOf app = .ok sd ∧ pyItems sd = .ok items ∧
        buildStaff items = .ok res.staff ∧
        schedulesOf (res.staff.map Prod.fst)
          (if docs.isEmpty then Json.obj [] else cal) docs [] = .ok res.schedules := by
  intro app docs cal res h
  simp only [build_comprehensive_data] at h
  cases h1 : staffDataOf app with
  | error e => simp only [h1] at h; exact Except.noConfusion h
  | ok sd =>
  simp only [h1] at h
  cases h2 : pyItems sd with
  | error e => simp only [h2] at h; exact Except.noConfusion h
  | ok items =>
  simp only [h2] at h
  cases h3 : buildStaff items with
  | error e => simp only [h3] at h; exact Except.noConfusion h
  | ok staffList =>
  simp only [h3] at h
  cases h4 : schedulesOf (staffList.map Prod.fst)
      (if docs.isEmpty then Json.obj [] else cal) docs [] with
  | error e => simp only [h4] at h; exact Except.noConfusion h
  | ok scheds =>
  simp only [h4] at h
  injection h with hinj
  subst hinj
  exact ⟨sd, items, rfl, h2, h3, h4⟩

theorem upsert_snd {α : Type} (m : List (Json × α)) (k : Json) (v : α) :
    ∀ q ∈ upsert m k v, q.2 = v ∨ ∃ p ∈ m, q.2 = p.2 := by
  intro q hq
  unfold upsert at hq
  by_cases hany : m.any (fun p => keyEq p.1 k) = true
  · rw [if_pos hany] at hq
    simp only [List.mem_map] at hq
    obtain ⟨p, hp, hq2⟩ := hq
    by_cases hk : keyEq p.1 k = true
    · rw [if_pos hk] at hq2
      left
      rw [← hq2]
    · rw [if_neg hk] at hq2
      right
      exact ⟨p, hp, by rw [← hq2]⟩
  · rw [if_neg hany] at hq
    rw [List.mem_append] at hq
    cases hq with
    | inl hm => exact Or.inr ⟨q, hm, rfl⟩
    | inr hv =>
      left
      simp only [List.mem_singleton] at hv
      rw [hv]

theorem processDoc_inner :
    ∀ ids cal acc doc res, processDoc ids cal acc doc = .ok res →
      ∀ q ∈ res, (∃ p ∈ acc, q.2 = p.2) ∨ FromPerStaff ids cal q.2 := by
  intro ids cal acc doc res h q hq
  simp only [processDoc] at h
  by_cases htr : truthy doc = false
  · rw [if_pos htr] at h
    injection h with hinj
    subst hinj
    exact Or.inl ⟨q, hq, rfl⟩
  · rw [if_neg htr] at h
    cases h1 : pyGet doc "date" (Json.str "Unknown") with
    | error e => simp only [h1] at h; exact Except.noConfusion h
    | ok date =>
    simp only [h1] at h
    cases h2 : pyGet doc "shiftsByStaffIdAndDay" (Json.obj []) with
    | error e => simp only [h2] at h; exact Except.noConfusion h
    | ok sdata =>
    simp only [h2] at h
    cases h3 : pyGet doc "appointments" (Json.obj []) with
    | error e => simp only [h3] at h; exact Except.noConfusion h
    | ok atop =>
    simp only [h3] at h
    cases h4 : pyGet atop "byId" (Json.obj []) with
    | error e => simp only [h4] at h; exact Except.noConfusion h
    | ok adata =>
    simp only [h4] at h
    by_cases hh : hashable date = false
    · rw [if_pos hh] at h; exact Except.noConfusion h
    · rw [if_neg hh] at h
      cases h5 : perStaffSchedules date sdata adata cal ids with
      | error e => simp only [h5] at h; exact Except.noConfusion h
      | ok inner =>
      simp only [h5] at h
      injection h with hinj
      subst hinj
      cases upsert_snd acc date inner q hq with
      | inl hv => exact Or.inr ⟨date, sdata, adata, by rw [hv]; exact h5⟩
      | inr hp => exact Or.inl hp

theorem schedulesOf_inner :
    ∀ ids cal docs acc res, schedulesOf ids cal docs acc = .ok res →
      (∀ q ∈ acc, FromPerStaff ids cal q.2) →
      ∀ q ∈ res, FromPerStaff ids cal q.2 := by
  intro ids cal docs
  induction docs with
  | nil =>
    intro acc res h hacc
    simp only [schedulesOf] at h
    injection h with hinj
    subst hinj
    exact hacc
  | cons doc rest ih =>
    intro acc res h hacc
    simp only [schedulesOf] at h
    cases h1 : processDoc ids cal acc doc with
    | error e => simp only [h1] at h; exact Except.noConfusion h
    | ok acc2 =>
    simp only [h1] at h
    refine ih acc2 res h ?_
    intro q hq
    cases processDoc_inner ids cal acc doc acc2 h1 q hq with
    | inl hp =>
      obtain ⟨p, hp2, heq⟩ := hp
      rw [heq]
      exact hacc p hp2
    | inr hfrom => exact hfrom

theorem perStaff_keys :
    ∀ date sd ad cal ids inner, perStaffSchedules date sd ad cal ids = .ok inner →
      inner.map Prod.fst = ids := by
  intro date sd ad cal ids
  induction ids with
  | nil =>
    intro inner h
    simp only [perStaffSchedules] at h
    injection h with hinj
    subst hinj
    rfl
  | cons sid rest ih =>
    intro inner h
    simp only [perStaffSchedules] at h
    cases h1 : pyGet sd sid (Json.obj []) with
    | error e => simp only [h1] at h; exact Except.noConfusion h
    | ok staff_shifts =>
    simp only [h1] at h
    cases h2 : pyGetK staff_shifts date (Json.arr []) with
    | error e => simp only [h2] at h; exact Except.noConfusion h
    | ok dayShiftsJ =>
    simp only [h2] at h
    cases h3 : pyIter dayShiftsJ with
    | error e => simp only [h3] at h; exact Except.noConfusion h
    | ok day_shifts =>
    simp only [h3] at h
    cases h4 : buildShifts day_shifts with
    | error e => simp only [h4] at h; exact Except.noConfusion h
    | ok shifts =>
    simp only [h4] at h
    cases h5 : pyItems ad with
    | error e => simp only [h5] at h; exact Except.noConfusion h
    | ok appt_items =>
    simp only [h5] at h
    cases h6 : apptsForStaff sid cal appt_items with
    | error e => simp only [h6] at h; exact Except.noConfusion h
    | ok appts =>
    simp only [h6] at h
    cases h7 : sortAppointments appts with
    | error e => simp only [h7] at h; exact Except.noConfusion h
    | ok sortedAppts =>
    simp only [h7] at h
    cases h8 : perStaffSchedules date sd ad cal rest with
    | error e => simp only [h8] at h; exact Except.noConfusion h
    | ok restOut =>
    simp only [h8] at h
    injection h with hinj
    subst hinj
    simp only [List.map_cons]
    rw [ih restOut h8]

theorem perStaff_entries :
    ∀ date sd ad cal ids inner, perStaffSchedules date sd ad cal ids = .ok inner →
      ∀ q ∈ inner, ∃ shifts appts sortedA, sortAppointments appts = .ok sortedA ∧
        q.2 = Json.obj [("shifts", Json.arr shifts), ("appointments", Json.arr sortedA)] := by
  intro date sd ad cal ids
  induction ids with
  | nil =>
    intro inner h q hq
    simp only [perStaffSchedules] at h
    injection h with hinj
    subst hinj
    cases hq
  | cons sid rest ih =>
    intro inner h q hq
    simp only [perStaffSchedules] at h
    cases h1 : pyGet sd sid (Json.obj []) with
    | error e => simp only [h1] at h; exact Except.noConfusion h
    | ok staff_shifts =>
    simp only [h1] at h
    cases h2 : pyGetK staff_shifts date (Json.arr []) with
    | error e => simp only [h2] at h; exact Except.noConfusion h
    | ok dayShiftsJ =>
    simp only [h2] at h
    cases h3 : pyIter dayShiftsJ with
    | error e => simp only [h3] at h; exact Except.noConfusion h
    | ok day_shifts =>
    simp only [h3] at h
    cases h4 : buildShifts day_shifts with
    | error e => simp only [h4] at h; exact Except.noConfusion h
    | ok shifts =>
    simp only [h4] at h
    cases h5 : pyItems ad with
    | error e => simp only [h5] at h; exact Except.noConfusion h
    | ok appt_items =>
    simp only [h5] at h
    cases h6 : apptsForStaff sid cal appt_items with
    | error e => simp only [h6] at h; exact Except.noConfusion h
    | ok appts =>
    simp only [h6] at h
    cases h7 : sortAppointments appts with
    | error e => simp only [h7] at h; exact Except.noConfusion h
    | ok sortedAppts =>
    simp only [h7] at h
    cases h8 : perStaffSchedules date sd ad cal rest with
    | error e => simp only [h8] at h; exact Except.noConfusion h
    | ok restOut =>
    simp only [h8] at h
    injection h with hinj
    subst hinj
    cases hq with
    | head => exact ⟨shifts, appts, sortedAppts, h7, rfl⟩
    | tail _ htail => exact ih restOut h8 q htail

theorem insortK_spec (x : Json × Json) :
    ∀ acc out, insortK x acc = .ok out →
      (∀ p ∈ out, p = x ∨ p ∈ acc) ∧
      (out.head? = some x ∨ out.head? = acc.head?) ∧
      (List.Chain' (fun u v => pyLt v.1 u.1 ≠ .ok true) acc →
        List.Chain' (fun u v => pyLt v.1 u.1 ≠ .ok true) out) := by
  intro acc
  induction acc with
  | nil =>
    intro out h
    simp only [insortK] at h
    injection h with hinj
    subst hinj
    refine ⟨?_, Or.inl rfl, ?_⟩
    · intro p hp
      simp only [List.mem_singleton] at hp
      exact Or.inl hp
    · intro _
      simp
  | cons y ys ih =>
    intro out h
    simp only [insortK] at h
    cases hc : pyLt x.1 y.1 with
    | error e => simp only [hc] at h; exact Except.noConfusion h
    | ok b =>
    simp only [hc] at h
    cases b with
    | true =>
      injection h with hinj
      subst hinj
      refine ⟨?_, Or.inl rfl, ?_⟩
      · intro p hp
        simp only [List.mem_cons] at hp
        cases hp with
        | inl h1 => exact Or.inl h1
        | inr h2 => exact Or.inr (by simp [h2])
      · intro hch
        rw [List.chain'_cons]
        refine ⟨?_, hch⟩
        rw [pyLt_asymm x.1 y.1 hc]
        simp
    | false =>
      cases hr : insortK x ys with
      | error e => simp only [hr] at h; exact Except.noConfusion h
      | ok r =>
      simp only [hr] at h
      injection h with hinj
      subst hinj
      obtain ⟨ihmem, ihhead, ihch⟩ := ih r hr
      refine ⟨?_, ?_, ?_⟩
      · intro p hp
        simp only [List.mem_cons] at hp
        cases hp with
        | inl h1 => exact Or.inr (by simp [h1])
        | inr h2 =>
          cases ihmem p h2 with
          | inl h3 => exact Or.inl h3
          | inr h4 => exact Or.inr (List.mem_cons_of_mem _ h4)
      · exact Or.inr rfl
      · intro hch
        have hch2 := ihch (List.chain'_cons'.mp hch).2
        cases r with
        | nil => simp
        | cons r0 rt =>
          rw [List.chain'_cons]
          refine ⟨?_, hch2⟩
          cases ihhead with
          | inl hx =>
            have : r0 = x := by
              simp only [List.head?_cons] at hx
              exact (Option.some.inj hx)
            subst this
            rw [hc]
            simp
          | inr hy =>
            cases ys with
            | nil => simp only [List.head?_nil] at hy; exact Option.noConfusion hy
            | cons y0 yt =>
              simp only [List.head?_cons] at hy
              have : r0 = y0 := Option.some.inj hy
              subst this
              exact (List.chain'_cons.mp hch).1

theorem sortK_spec :
    ∀ kl acc out, sortK kl acc = .ok out →
      (∀ p ∈ out, p ∈ kl ∨ p ∈ acc) ∧
      (List.Chain' (fun u v => pyLt v.1 u.1 ≠ .ok true) acc →
        List.Chain' (fun u v => pyLt v.1 u.1 ≠ .ok true) out) := by
  intro kl
  induction kl with
  | nil =>
    intro acc out h
    simp only [sortK] at h
    injection h with hinj
    subst hinj
    exact ⟨fun p hp => Or.inr hp, fun hch => hch⟩
  | cons x xs ih =>
    intro acc out h
    simp only [sortK] at h
    cases h1 : insortK x acc with
    | error e => simp only [h1] at h; exact Except.noConfusion h
    | ok acc2 =>
    simp only [h1] at h
    obtain ⟨imem, _, ich⟩ := insortK_spec x acc acc2 h1
    obtain ⟨smem, sch⟩ := ih acc2 out h
    refine ⟨?_, ?_⟩
    · intro p hp
      cases smem p hp with
      | inl hx => exact Or.inl (List.mem_cons_of_mem _ hx)
      | inr hacc2 =>
        cases imem p hacc2 with
        | inl hpx => exact Or.inl (by simp [hpx])
        | inr hpacc => exact Or.inr hpacc
    · intro hch
      exact sch (ich hch)

theorem mapKeys_spec :
    ∀ l kl, mapKeys l = .ok kl → ∀ p ∈ kl, startKey p.2 = .ok p.1 := by
  intro l
  induction l with
  | nil =>
    intro kl h p hp
    simp only [mapKeys] at h
    injection h with hinj
    subst hinj
    cases hp
  | cons r rest ih =>
    intro kl h p hp
    simp only [mapKeys] at h
    cases h1 : startKey r with
    | error e => simp only [h1] at h; exact Except.noConfusion h
    | ok k =>
    simp only [h1] at h
    cases h2 : mapKeys rest with
    | error e => simp only [h2] at h; exact Except.noConfusion h
    | ok ks =>
    simp only [h2] at h
    injection h with hinj
    subst hinj
    cases hp with
    | head => exact h1
    | tail _ htail => exact ih ks h2 p htail

theorem chain_pairs_to_recs :
    ∀ sorted : List (Json × Json),
      (∀ p ∈ sorted, startKey p.2 = .ok p.1) →
      List.Chain' (fun u v => pyLt v.1 u.1 ≠ .ok true) sorted →
      List.Chain' recLe (sorted.map Prod.snd) := by
  intro sorted
  induction sorted with
  | nil => intro _ _; simp
  | cons a t ih =>
    intro hmem hch
    cases t with
    | nil => simp
    | cons b t2 =>
      simp only [List.map_cons]
      rw [List.chain'_cons]
      constructor
      · intro ka kb hka hkb
        have ha := hmem a (List.mem_cons_self _ _)
        have hb := hmem b (List.mem_cons_of_mem _ (List.mem_cons_self _ _))
        rw [ha] at hka
        rw [hb] at hkb
        have hka2 := Option.some.inj (by exact congrArg Except.toOption hka)
        have hkb2 := Option.some.inj (by exact congrArg Except.toOption hkb)
        rw [← hka2, ← hkb2]
        exact (List.chain'_cons.mp hch).1
      · have := ih (fun p hp => hmem p (List.mem_cons_of_mem _ hp)) (List.chain'_cons.mp hch).2
        simpa using this

theorem sortAppointments_chain :
    ∀ l out, sortAppointments l = .ok out → List.Chain' recLe out := by
  intro l out h
  simp only [sortAppointments] at h
  cases h1 : mapKeys l with
  | error e => simp only [h1] at h; exact Except.noConfusion h
  | ok kl =>
  simp only [h1] at h
  cases h2 : sortK kl [] with
  | error e => simp only [h2] at h; exact Except.noConfusion h
  | ok sorted =>
  simp only [h2] at h
  injection h with hinj
  subst hinj
  obtain ⟨smem, sch⟩ := sortK_spec kl [] sorted h2
  have hsorted_keys : ∀ p ∈ sorted, startKey p.2 = .ok p.1 := by
    intro p hp
    cases smem p hp with
    | inl hkl => exact mapKeys_spec l kl h1 p hkl
    | inr hnil => cases hnil
  exact chain_pairs_to_recs sorted hsorted_keys (sch (by simp))

theorem insortK_append (x : Json × Json) :
    ∀ acc, (∀ y ∈ acc, pyLt x.1 y.1 = .ok false) → insortK x acc = .ok (acc ++ [x]) := by
  intro acc
  induction acc with
  | nil => intro _; rfl
  | cons y ys ih =>
    intro hall
    have hy := hall y (List.mem_cons_self _ _)
    simp only [insortK, hy]
    rw [ih (fun z hz => hall z (List.mem_cons_of_mem _ hz))]
    simp

theorem sortK_sorted_id :
    ∀ kl acc, (∀ y ∈ acc, ∀ x ∈ kl, pyLt x.1 y.1 = .ok false) →
      List.Pairwise (fun u v => pyLt v.1 u.1 = .ok false) kl →
      sortK kl acc = .ok (acc ++ kl) := by
  intro kl
  induction kl with
  | nil => intro acc _ _; simp [sortK]
  | cons x xs ih =>
    intro acc hcross hpw
    simp only [sortK]
    rw [insortK_append x acc (fun y hy => hcross y hy x (List.mem_cons_self _ _))]
    have hpw2 := List.pairwise_cons.mp hpw
    have hres := ih (acc ++ [x]) ?_ hpw2.2
    · show sortK xs (acc ++ [x]) = Except.ok (acc ++ x :: xs)
      rw [hres]
      simp
    · intro y hy x2 hx2
      rw [List.mem_append] at hy
      cases hy with
      | inl hacc => exact hcross y hacc x2 (List.mem_cons_of_mem _ hx2)
      | inr hsing =>
        simp only [List.mem_singleton] at hsing
        subst hsing
        exact hpw2.1 x2 hx2

theorem mapKeys_all_ok :
    ∀ l : List Json, (∀ r ∈ l, ∃ k, startKey r = .ok k) →
      ∃ kl, mapKeys l = .ok kl ∧ kl.map Prod.snd = l := by
  intro l
  induction l with
  | nil => intro _; exact ⟨[], rfl, rfl⟩
  | cons r rest ih =>
    intro hall
    obtain ⟨k, hk⟩ := hall r (List.mem_cons_self _ _)
    obtain ⟨kl, hkl, hsnd⟩ := ih (fun r2 hr2 => hall r2 (List.mem_cons_of_mem _ hr2))
    refine ⟨(k, r) :: kl, ?_, ?_⟩
    · simp only [mapKeys, hk, hkl]
    · simp [hsnd]

theorem chain_recs_to_pairs :
    ∀ kl : List (Json × Json),
      (∀ p ∈ kl, startKey p.2 = .ok p.1) →
      List.Chain' (fun u v => strStartLe u.2 v.2) kl →
      List.Chain' (fun u v => pyLt v.1 u.1 = .ok false) kl := by
  intro kl
  induction kl with
  | nil => intro _ _; simp
  | cons a t ih =>
    intro hmem hch
    cases t with
    | nil => simp
    | cons b t2 =>
      rw [List.chain'_cons] at hch ⊢
      constructor
      · obtain ⟨sa, sb, hka, hkb, hlt⟩ := hch.1
        have ha := hmem a (List.mem_cons_self _ _)
        have hb := hmem b (List.mem_cons_of_mem _ (List.mem_cons_self _ _))
        rw [ha] at hka
        rw [hb] at hkb
        have ha2 : a.1 = Json.str sa := Except.ok.inj hka
        have hb2 : b.1 = Json.str sb := Except.ok.inj hkb
        rw [ha2, hb2]
        simp only [pyLt, pyStrLt]
        exact congrArg Except.ok hlt
      · exact ih (fun p hp => hmem p (List.mem_cons_of_mem _ hp)) hch.2

theorem sortAppointments_sorted_id :
    ∀ l, (∀ r ∈ l, ∃ s, startKey r = .ok (Json.str s)) →
      List.Chain' strStartLe l → sortAppointments l = .ok l := by
  intro l hstr hch
  obtain ⟨kl, hmk, hsnd⟩ := mapKeys_all_ok l
    (fun r hr => ⟨Json.str (hstr r hr).choose, (hstr r hr).choose_spec⟩)
  have hpair := mapKeys_spec l kl hmk
  have hkeystr : ∀ p ∈ kl, ∃ s, p.1 = Json.str s := by
    intro p hp
    have hp2 : p.2 ∈ l := by
      rw [← hsnd]
      exact List.mem_map_of_mem Prod.snd hp
    obtain ⟨s, hs⟩ := hstr p.2 hp2
    have := hpair p hp
    rw [this] at hs
    exact ⟨s, Except.ok.inj hs⟩
  have hchkl : List.Chain' (fun u v => strStartLe u.2 v.2) kl := by
    rw [← hsnd] at hch
    exact (List.chain'_map Prod.snd).mp hch
  have hchp := chain_recs_to_pairs kl hpair hchkl
  have hpw : List.Pairwise (fun u v => pyLt v.1 u.1 = .ok false) kl := by
    refine chain'_to_pairwise kl ?_ hchp
    intro x y z hx hy hz hxy hyz
    obtain ⟨sx, hsx⟩ := hkeystr x hx
    obtain ⟨sy, hsy⟩ := hkeystr y hy
    obtain ⟨sz, hsz⟩ := hkeystr z hz
    rw [hsy, hsx] at hxy
    rw [hsz, hsy] at hyz
    rw [hsz, hsx]
    simp only [pyLt, pyStrLt] at hxy hyz ⊢
    have hxy2 : strLtChars sy.data sx.data = false := by
      injection hxy
    have hyz2 : strLtChars sz.data sy.data = false := by
      injection hyz
    rw [strLtChars_le_trans sx.data sy.data sz.data hxy2 hyz2]
  have hsk := sortK_sorted_id kl [] (by intro y hy; cases hy) hpw
  simp only [sortAppointments, hmk, hsk, List.nil_append]
  rw [hsnd]

theorem insortInt_spec {α : Type} (x : Int × α) :
    ∀ acc : List (Int × α),
      (∀ p ∈ insortInt x acc, p = x ∨ p ∈ acc) ∧
      ((insortInt x acc).head? = some x ∨ (insortInt x acc).head? = acc.head?) ∧
      (List.Chain' (fun u v => u.1 ≤ v.1) acc →
        List.Chain' (fun u v => u.1 ≤ v.1) (insortInt x acc)) := by
  intro acc
  induction acc with
  | nil =>
    refine ⟨?_, Or.inl rfl, ?_⟩
    · intro p hp
      simp only [insortInt, List.mem_singleton] at hp
      exact Or.inl hp
    · intro _
      simp [insortInt]
  | cons y ys ih =>
    obtain ⟨ihmem, ihhead, ihch⟩ := ih
    by_cases hlt : x.1 < y.1
    · refine ⟨?_, ?_, ?_⟩
      · intro p hp
        simp only [insortInt, if_pos hlt, List.mem_cons] at hp
        cases hp with
        | inl h1 => exact Or.inl h1
        | inr h2 => exact Or.inr (by simpa using h2)
      · simp only [insortInt, if_pos hlt]
        exact Or.inl rfl
      · intro hch
        simp only [insortInt, if_pos hlt]
        rw [List.chain'_cons]
        exact ⟨le_of_lt hlt, hch⟩
    · refine ⟨?_, ?_, ?_⟩
      · intro p hp
        simp only [insortInt, if_neg hlt, List.mem_cons] at hp
        cases hp with
        | inl h1 => exact Or.inr (by simp [h1])
        | inr h2 =>
          cases ihmem p h2 with
          | inl h3 => exact Or.inl h3
          | inr h4 => exact Or.inr (List.mem_cons_of_mem _ h4)
      · simp only [insortInt, if_neg hlt]
        exact Or.inr rfl
      · intro hch
        simp only [insortInt, if_neg hlt]
        have hch2 := ihch (List.chain'_cons'.mp hch).2
        cases hr : insortInt x ys with
        | nil => simp
        | cons r0 rt =>
          rw [List.chain'_cons]
          rw [hr] at hch2
          refine ⟨?_, hch2⟩
          rw [hr] at ihhead
          cases ihhead with
          | inl hx =>
            simp only [List.head?_cons] at hx
            have : r0 = x := Option.some.inj hx
            subst this
            omega
          | inr hy =>
            cases ys with
            | nil => simp only [List.head?_nil] at hy; exact Option.noConfusion hy
            | cons y0 yt =>
              simp only [List.head?_cons] at hy
              have : r0 = y0 := Option.some.inj hy
              subst this
              exact (List.chain'_cons.mp hch).1

theorem foldl_insort_spec {α : Type} :
    ∀ (l acc : List (Int × α)),
      List.Chain' (fun u v => u.1 ≤ v.1) acc →
      (∀ p ∈ l.foldl (fun acc x => insortInt x acc) acc, p ∈ l ∨ p ∈ acc) ∧
      List.Chain' (fun u v => u.1 ≤ v.1) (l.foldl (fun acc x => insortInt x acc) acc) := by
  intro l
  induction l with
  | nil =>
    intro acc hch
    exact ⟨fun p hp => Or.inr hp, hch⟩
  | cons x xs ih =>
    intro acc hch
    obtain ⟨imem, _, ich⟩ := insortInt_spec x acc
    obtain ⟨fmem, fch⟩ := ih (insortInt x acc) (ich hch)
    refine ⟨?_, fch⟩
    intro p hp
    cases fmem p hp with
    | inl hxs => exact Or.inl (List.mem_cons_of_mem _ hxs)
    | inr hacc =>
      cases imem p hacc with
      | inl hpx => exact Or.inl (by simp [hpx])
      | inr hpa => exact Or.inr hpa

theorem mapIntKeys_spec :
    ∀ staff kl, mapIntKeys staff = .ok kl → ∀ p ∈ kl, pyInt p.2.1 = .ok p.1 := by
  intro staff
  induction staff with
  | nil =>
    intro kl h p hp
    simp only [mapIntKeys] at h
    injection h with hinj
    subst hinj
    cases hp
  | cons q rest ih =>
    intro kl h p hp
    simp only [mapIntKeys] at h
    cases h1 : pyInt q.1 with
    | error e => simp only [h1] at h; exact Except.noConfusion h
    | ok k =>
    simp only [h1] at h
    cases h2 : mapIntKeys rest with
    | error e => simp only [h2] at h; exact Except.noConfusion h
    | ok ks =>
    simp only [h2] at h
    injection h with hinj
    subst hinj
    cases hp with
    | head => exact h1
    | tail _ htail => exact ih ks h2 p htail

theorem mapIntKeys_error :
    ∀ staff p, p ∈ staff → (∃ e, pyInt p.1 = .error e) →
      ∃ e2, mapIntKeys staff = .error e2 := by
  intro staff
  induction staff with
  | nil =>
    intro p hp
    cases hp
  | cons q rest ih =>
    intro p hp herr
    simp only [mapIntKeys]
    cases h1 : pyInt q.1 with
    | error e => exact ⟨e, rfl⟩
    | ok k =>
      cases hp with
      | head =>
        obtain ⟨e, he⟩ := herr
        rw [he] at h1
        exact Except.noConfusion h1
      | tail _ htail =>
        obtain ⟨e2, he2⟩ := ih p htail herr
        rw [he2]
        exact ⟨e2, rfl⟩

theorem chain_int_pairs_to_entries :
    ∀ kl : List (Int × (String × Json)),
      (∀ p ∈ kl, pyInt p.2.1 = .ok p.1) →
      List.Chain' (fun u v => u.1 ≤ v.1) kl →
      List.Chain' numIdLe (kl.map Prod.snd) := by
  intro kl
  induction kl with
  | nil => intro _ _; simp
  | cons a t ih =>
    intro hmem hch
    cases t with
    | nil => simp
    | cons b t2 =>
      simp only [List.map_cons]
      rw [List.chain'_cons]
      constructor
      · exact ⟨a.1, b.1, hmem a (List.mem_cons_self _ _),
          hmem b (List.mem_cons_of_mem _ (List.mem_cons_self _ _)),
          (List.chain'_cons.mp hch).1⟩
      · have := ih (fun p hp => hmem p (List.mem_cons_of_mem _ hp)) (List.chain'_cons.mp hch).2
        simpa using this

theorem processDoc_shape :
    ∀ ids cal acc doc res, processDoc ids cal acc doc = .ok res →
      (truthy doc = false ∧ res = acc) ∨
      ∃ date inner, pyGet doc "date" (Json.str "Unknown") = .ok date ∧
        hashable date = true ∧ res = upsert acc date inner ∧
        (∀ acc2, processDoc ids cal acc2 doc = .ok (upsert acc2 date inner)) := by
  intro ids cal acc doc res h
  simp only [processDoc] at h
  by_cases htr : truthy doc = false
  · rw [if_pos htr] at h
    injection h with hinj
    exact Or.inl ⟨htr, hinj.symm⟩
  · rw [if_neg htr] at h
    cases h1 : pyGet doc "date" (Json.str "Unknown") with
    | error e => simp only [h1] at h; exact Except.noConfusion h
    | ok date =>
    simp only [h1] at h
    cases h2 : pyGet doc "shiftsByStaffIdAndDay" (Json.obj []) with
    | error e => simp only [h2] at h; exact Except.noConfusion h
    | ok sdata =>
    simp only [h2] at h
    cases h3 : pyGet doc "appointments" (Json.obj []) with
    | error e => simp only [h3] at h; exact Except.noConfusion h
    | ok atop =>
    simp only [h3] at h
    cases h4 : pyGet atop "byId" (Json.obj []) with
    | error e => simp only [h4] at h; exact Except.noConfusion h
    | ok adata =>
    simp only [h4] at h
    by_cases hh : hashable date = false
    · rw [if_pos hh] at h; exact Except.noConfusion h
    · rw [if_neg hh] at h
      cases h5 : perStaffSchedules date sdata adata cal ids with
      | error e => simp only [h5] at h; exact Except.noConfusion h
      | ok inner =>
      simp only [h5] at h
      injection h with hinj
      refine Or.inr ⟨date, inner, rfl, by simpa using hh, hinj.symm, ?_⟩
      intro acc2
      simp only [processDoc, if_neg htr, h1, h2, h3, h4, if_neg hh, h5]

/-- C4: two day snapshots carrying the same date string, processed in
sequence, leave exactly one composite-schedule entry for that date,
equal to the result of aggregating the second snapshot alone. -/
theorem C4_date_overwrite :
    ∀ app cal doc1 doc2 d res,
      truthy doc1 = true → truthy doc2 = true →
      pyGet doc1 "date" (Json.str "Unknown") = .ok d →
      pyGet doc2 "date" (Json.str "Unknown") = .ok d →
      build_comprehensive_data app [doc1, doc2] cal = .ok res →
      ∃ inner, res.schedules = [(d, inner)] ∧
        build_comprehensive_data app [doc2] cal = .ok ⟨res.staff, [(d, inner)]⟩ := by
  intro app cal doc1 doc2 d res ht1 ht2 hd1 hd2 h
  obtain ⟨sd, items, hsd, hitems, hstaff, hsch⟩ := build_decomp app [doc1, doc2] cal res h
  simp only [List.isEmpty_cons, Bool.false_eq_true, if_false] at hsch
  simp only [schedulesOf] at hsch
  cases p1 : processDoc (res.staff.map Prod.fst) cal [] doc1 with
  | error e => simp only [p1] at hsch; exact Except.noConfusion hsch
  | ok acc1 =>
  simp only [p1] at hsch
  cases p2 : processDoc (res.staff.map Prod.fst) cal acc1 doc2 with
  | error e => simp only [p2] at hsch; exact Except.noConfusion hsch
  | ok acc2 =>
  simp only [p2] at hsch
  injection hsch with hsch2
  cases processDoc_shape _ _ _ _ _ p1 with
  | inl hskip => rw [hskip.1] at ht1; exact Bool.noConfusion ht1
  | inr hfull1 =>
  obtain ⟨date1, inner1, hdd1, hhash1, hres1, _⟩ := hfull1
  rw [hd1] at hdd1
  have hdate1 : date1 = d := Except.ok.inj hdd1.symm
  rw [hdate1] at hhash1 hres1
  cases processDoc_shape _ _ _ _ _ p2 with
  | inl hskip => rw [hskip.1] at ht2; exact Bool.noConfusion ht2
  | inr hfull2 =>
  obtain ⟨date2, inner2, hdd2, hhash2, hres2, hall2⟩ := hfull2
  rw [hd2] at hdd2
  have hdate2 : date2 = d := Except.ok.inj hdd2.symm
  rw [hdate2] at hhash2 hres2 hall2
  have hacc1 : acc1 = [(d, inner1)] := by
    rw [hres1]
    rfl
  have hkr : keyEq d d = true := keyEq_refl d hhash1
  have hacc2 : acc2 = [(d, inner2)] := by
    rw [hres2, hacc1]
    simp [upsert, hkr]
  refine ⟨inner2, by rw [← hsch2, hacc2], ?_⟩
  simp only [build_comprehensive_data, hsd, hitems, hstaff]
  simp only [List.isEmpty_cons, Bool.false_eq_true, if_false]
  simp only [schedulesOf, hall2 []]
  have : upsert ([] : List (Json × List (String × Json))) d inner2 = [(d, inner2)] := rfl
  rw [this]

/-- C4 witness: a concrete run of the aggregator on two copies of the
same minimal day snapshot. -/
theorem C4_date_overwrite_witness :
    truthy wDoc = true ∧
    ∃ inner, (BuildResult.mk [] [(Json.str "2025-07-26", [])]).schedules =
        [(Json.str "2025-07-26", inner)] ∧
      build_comprehensive_data (Json.obj []) [wDoc] (Json.obj []) =
        .ok ⟨(BuildResult.mk [] [(Json.str "2025-07-26", [])]).staff,
          [(Json.str "2025-07-26", inner)]⟩ :=
  ⟨rfl, C4_date_overwrite (Json.obj []) (Json.obj []) wDoc wDoc (Json.str "2025-07-26")
    (BuildResult.mk [] [(Json.str "2025-07-26", [])]) rfl rfl rfl rfl rfl⟩

/-- C1 counterexample: the two parts of cxAppt are encountered with
raw start timestamps in lexicographically ascending order (SvcA at
2025-07-25T23:00:00 before SvcB at 2025-07-26T01:00:00), yet the
produced appointments list places SvcB's record (formatted start
01:00) before SvcA's (formatted start 23:00): the list is not sorted
by string comparison of the raw ISO start timestamps. -/
theorem C1_counterexample :
    build_comprehensive_data cxApp [cxDoc] cxCal = .ok cxRes ∧
    cxRes.schedules = [(.str "2025-07-26", [("11", Json.obj [("shifts", Json.arr []),
      ("appointments", Json.arr [cxRec2, cxRec1])])])] ∧
    format_time "2025-07-25T23:00:00" = "23:00" ∧
    format_time "2025-07-26T01:00:00" = "01:00" ∧
    pyStrLt "2025-07-25T23:00:00" "2025-07-26T01:00:00" = true :=
  ⟨rfl, rfl, rfl, rfl, rfl⟩

/-- C1 (amended): in every successful run, every appointments list in
the composite schedule is ascending under the order on the records'
formatted start values (no later record's start key is Python-less
than an earlier one's), with ties left in encounter order by the
stable insertion; and sorting a list already ascending by string start
keys returns it unchanged (stability and idempotence).  The order is
deterministic because the build is a function of its inputs. -/
theorem C1_sorted_by_formatted_start :
    (∀ app docs cal res, build_comprehensive_data app docs cal = .ok res →
      ∀ q ∈ res.schedules, ∀ e ∈ q.2, ∃ shifts sortedA,
        e.2 = Json.obj [("shifts", Json.arr shifts), ("appointments", Json.arr sortedA)] ∧
        List.Chain' recLe sortedA) ∧
    (∀ l, (∀ r ∈ l, ∃ s, startKey r = .ok (Json.str s)) →
      List.Chain' strStartLe l → sortAppointments l = .ok l) := by
  constructor
  · intro app docs cal res h q hq e he
    obtain ⟨sd, items, hsd, hitems, hstaff, hsch⟩ := build_decomp app docs cal res h
    have hfrom := schedulesOf_inner (res.staff.map Prod.fst)
      (if docs.isEmpty then Json.obj [] else cal) docs [] res.schedules hsch
      (by intro q2 hq2; cases hq2) q hq
    obtain ⟨date, sdd, ad, hps⟩ := hfrom
    obtain ⟨shifts, appts, sortedA, hsort, he2⟩ :=
      perStaff_entries date sdd ad _ _ q.2 hps e he
    exact ⟨shifts, sortedA, he2, sortAppointments_chain appts sortedA hsort⟩
  · exact sortAppointments_sorted_id

/-- C1 witness: the sorted-input half applied to a concrete two-record
list with ascending string start keys. -/
theorem C1_sorted_witness :
    (∀ r ∈ [cxRec2, cxRec1], ∃ s, startKey r = .ok (Json.str s)) ∧
    sortAppointments [cxRec2, cxRec1] = .ok [cxRec2, cxRec1] := by
  have hstr : ∀ r ∈ [cxRec2, cxRec1], ∃ s, startKey r = .ok (Json.str s) := by
    intro r hr
    rcases List.mem_cons.mp hr with h | hr2
    · exact ⟨"01:00", by rw [h]; rfl⟩
    rcases List.mem_cons.mp hr2 with h | h3
    · exact ⟨"23:00", by rw [h]; rfl⟩
    · cases h3
  refine ⟨hstr, C1_sorted_by_formatted_start.2 [cxRec2, cxRec1] hstr ?_⟩
  refine List.chain'_cons.mpr ⟨⟨"01:00", "23:00", rfl, rfl, rfl⟩, ?_⟩
  exact List.chain'_singleton _

/-- C2 counterexample: a one-part appointment whose part carries the
distinct staff id 99 — absent from the staff directory — produces zero
AppointmentRecords rather than one: the whole composite schedule for
the day contains no appointment record at all. -/
theorem C2_counterexample :
    build_comprehensive_data cxApp [c2Doc] cxCal = .ok
      ⟨[("11", cxStaffEntry)], [(.str "2025-07-26", [("11", Json.obj
        [("shifts", Json.arr []), ("appointments", Json.arr [])])])]⟩ ∧
    pyGet c2Appt "appointmentParts" (Json.arr []) = .ok (Json.arr [c2Part]) ∧
    ([] : List Json).length ≠ [c2Part].length :=
  ⟨rfl, rfl, by decide⟩

/-- C2 (amended): for each staff id of the directory, the joiner
yields exactly one record per part attributed to that id by the
str-equality test of line 123 — hence one record per staff id when the
part staff ids are distinct — and every record carries the
appointment's shared price and status under its price and status
fields.  Records store no appointment-id field, and parts whose staff
id is not a directory key contribute no record (counterexample). -/
theorem C2_per_staff_records :
    ∀ sid cal appt ps recs price status,
      partsFor sid cal appt ps = .ok recs →
      pyGet appt "totalPrice" (Json.str "0") = .ok price →
      pyGet appt "workflowStatus" (Json.str "Unknown") = .ok status →
      recs.length = (ps.filter (matchesB sid)).length ∧
      ∀ r ∈ recs, ∃ fs, r = Json.obj fs ∧
        lookupF fs "price" = some price ∧ lookupF fs "status" = some status := by
  intro sid cal appt ps recs price status h hp hs
  obtain ⟨hlen, hrec⟩ := partsFor_spec sid cal appt ps recs h
  refine ⟨hlen, ?_⟩
  intro r hr
  obtain ⟨fs, p2, s2, hrfs, hp2, hs2, hl1, hl2⟩ := hrec r hr
  rw [hp] at hp2
  rw [hs] at hs2
  have hpeq : price = p2 := Except.ok.inj hp2
  have hseq : status = s2 := Except.ok.inj hs2
  rw [← hpeq] at hl1
  rw [← hseq] at hl2
  exact ⟨fs, hrfs, hl1, hl2⟩

/-- C2 witness: the joiner on the concrete two-part appointment for
staff 11 produces two records sharing price and status. -/
theorem C2_per_staff_witness :
    partsFor "11" cxCal cxAppt [cxPart1, cxPart2] = .ok [cxRec1, cxRec2] ∧
    ([cxRec1, cxRec2].length = ([cxPart1, cxPart2].filter (matchesB "11")).length ∧
      ∀ r ∈ [cxRec1, cxRec2], ∃ fs, r = Json.obj fs ∧
        lookupF fs "price" = some (Json.str "100") ∧
        lookupF fs "status" = some (Json.str "booked")) :=
  ⟨rfl, C2_per_staff_records "11" cxCal cxAppt [cxPart1, cxPart2] [cxRec1, cxRec2]
    (Json.str "100") (Json.str "booked") rfl rfl rfl⟩

/-- C3 counterexample: a field read through the source's dict.get
chain aborts with AttributeError when an intermediate value is present
but not a mapping — get_service_type on a catalog whose services entry
is a string raises instead of degrading to a default. -/
theorem C3_counterexample :
    get_service_type (Json.str "5") (Json.obj [("services", Json.str "oops")]) =
      .error "AttributeError" := rfl

/-- C3 (amended): reading a field returns the stored value or the
caller default when the key is absent from a mapping, but a read on a
value that is not a mapping raises AttributeError (it does not degrade
to the default), and a null stored under the key is returned as null
rather than replaced by the default. -/
theorem C3_field_access :
    (∀ fs k d, lookupF fs k = none → pyGet (Json.obj fs) k d = .ok d) ∧
    (∀ v k d, (∀ fs, v ≠ Json.obj fs) → pyGet v k d = .error "AttributeError") ∧
    (∀ fs k d, lookupF fs k = some Json.null → pyGet (Json.obj fs) k d = .ok Json.null) := by
  refine ⟨?_, ?_, ?_⟩
  · intro fs k d h
    simp [pyGet, h]
  · intro v k d h
    cases v with
    | obj fs => exact absurd rfl (h fs)
    | null => rfl
    | bool b => rfl
    | num n => rfl
    | str s => rfl
    | arr xs => rfl
  · intro fs k d h
    simp [pyGet, h]

/-- C3 witness: the default branch at a concrete missing key. -/
theorem C3_field_access_witness :
    lookupF [("a", Json.num 1)] "b" = none ∧
    pyGet (Json.obj [("a", Json.num 1)]) "b" (Json.str "dflt") = .ok (Json.str "dflt") :=
  ⟨rfl, C3_field_access.1 [("a", Json.num 1)] "b" (Json.str "dflt") rfl⟩

/-- C5: format_time is total by construction; applied to a well-formed
ISO timestamp whose date and time are separated by T or by a space it
returns the zero-padded HH:MM, and on the concrete inputs of the spec
it round-trips and passes garbage through unchanged. -/
theorem C5_format_time :
    (∀ y mo d hh mi ss sep, validDT y mo d hh mi ss = true → sep = 'T' ∨ sep = ' ' →
      format_time (renderIso y mo d sep hh mi ss) = twoDigits hh ++ ":" ++ twoDigits mi) ∧
    format_time "2025-07-26T14:30:00" = "14:30" ∧
    format_time "not-a-time" = "not-a-time" := by
  refine ⟨?_, rfl, rfl⟩
  intro y mo d hh mi ss sep hv hsep
  exact format_time_render y mo d hh mi ss sep hv hsep

/-- C5 witness: the round trip at the spec's concrete timestamp. -/
theorem C5_format_time_witness :
    validDT 2025 7 26 14 30 0 = true ∧
    format_time (renderIso 2025 7 26 'T' 14 30 0) = twoDigits 14 ++ ":" ++ twoDigits 30 :=
  ⟨by decide, C5_format_time.1 2025 7 26 14 30 0 'T' (by decide) (Or.inl rfl)⟩

/-- C10: a shift record without a locationId field yields a shift
entry with location_id equal to the integer 1, and a shift record with
a locationId keeps that stored value unchanged. -/
theorem C10_location_default :
    ∀ fs : List (String × Json),
      (lookupF fs "locationId" = none →
        ∃ a b, shiftEntry (Json.obj fs) = .ok
          (Json.obj [("start", a), ("end", b), ("location_id", Json.num 1)])) ∧
      (∀ v, lookupF fs "locationId" = some v →
        ∃ a b, shiftEntry (Json.obj fs) = .ok
          (Json.obj [("start", a), ("end", b), ("location_id", v)])) := by
  intro fs
  constructor
  · intro h
    refine ⟨formatTimeJ ((lookupF fs "startAtLocal").getD (Json.str "")),
            formatTimeJ ((lookupF fs "endAtLocal").getD (Json.str "")), ?_⟩
    simp [shiftEntry, pyGet, h]
  · intro v h
    refine ⟨formatTimeJ ((lookupF fs "startAtLocal").getD (Json.str "")),
            formatTimeJ ((lookupF fs "endAtLocal").getD (Json.str "")), ?_⟩
    simp [shiftEntry, pyGet, h]

/-- C10 witness: a concrete shift record lacking locationId. -/
theorem C10_location_default_witness :
    lookupF [("startAtLocal", Json.str "2025-07-26T09:00:00")] "locationId" = none ∧
    ∃ a b, shiftEntry (Json.obj [("startAtLocal", Json.str "2025-07-26T09:00:00")]) =
      .ok (Json.obj [("start", a), ("end", b), ("location_id", Json.num 1)]) :=
  ⟨rfl, (C10_location_default [("startAtLocal", Json.str "2025-07-26T09:00:00")]).1 rfl⟩

/-- C6: over registries whose serviceProvider fields are booleans (the
shape the input interface specifies), a staff id is a key of the built
directory precisely when its raw record carries serviceProvider
true. -/
theorem C6_provider_filter :
    ∀ items out, buildStaff items = .ok out →
      (∀ p ∈ items, ∀ v, flagLookup p.2 = some v → ∃ b, v = Json.bool b) →
      ∀ sid, sid ∈ out.map Prod.fst ↔
        ∃ info, (sid, info) ∈ items ∧ flagLookup info = some (Json.bool true) := by
  intro items out h hflags sid
  constructor
  · intro hmem
    obtain ⟨info, flag, hmem2, hget, htr⟩ := buildStaff_mem_src items out h sid hmem
    cases info with
    | obj fs =>
      simp only [pyGet] at hget
      injection hget with hflageq
      cases hlk : lookupF fs "serviceProvider" with
      | none =>
        rw [hlk] at hflageq
        simp only [Option.getD_none] at hflageq
        rw [← hflageq] at htr
        simp [truthy] at htr
      | some v =>
        rw [hlk] at hflageq
        simp only [Option.getD_some] at hflageq
        obtain ⟨b, hb⟩ := hflags (sid, Json.obj fs) hmem2 v (by simp [flagLookup, hlk])
        subst hb
        rw [← hflageq] at htr
        have hbt : b = true := by simpa [truthy] using htr
        subst hbt
        exact ⟨Json.obj fs, hmem2, by simp [flagLookup, hlk]⟩
    | null => exact Except.noConfusion hget
    | bool b => exact Except.noConfusion hget
    | num n => exact Except.noConfusion hget
    | str s => exact Except.noConfusion hget
    | arr xs => exact Except.noConfusion hget
  · intro hex
    obtain ⟨info, hmem2, hflag⟩ := hex
    exact buildStaff_src_mem items out h sid info hmem2 hflag

/-- C6 witness: a concrete registry with one provider and one
non-provider. -/
theorem C6_provider_filter_witness :
    buildStaff [("11", Json.obj [("serviceProvider", Json.bool true)]),
      ("5", Json.obj [("serviceProvider", Json.bool false)])] = .ok
      [("11", Json.obj [("id", Json.str "11"), ("name", Json.str "Unknown"),
        ("email", Json.str "No email")])] ∧
    ("11" ∈ ([("11", Json.obj [("id", Json.str "11"), ("name", Json.str "Unknown"),
        ("email", Json.str "No email")])].map Prod.fst) ↔
      ∃ info, ("11", info) ∈ [("11", Json.obj [("serviceProvider", Json.bool true)]),
          ("5", Json.obj [("serviceProvider", Json.bool false)])] ∧
        flagLookup info = some (Json.bool true)) := by
  refine ⟨rfl, C6_provider_filter
    [("11", Json.obj [("serviceProvider", Json.bool true)]),
     ("5", Json.obj [("serviceProvider", Json.bool false)])]
    [("11", Json.obj [("id", Json.str "11"), ("name", Json.str "Unknown"),
      ("email", Json.str "No email")])] rfl ?_ "11"⟩
  intro p hp v hv
  rcases List.mem_cons.mp hp with h | hp2
  · rw [h] at hv
    simp only [flagLookup, lookupF] at hv
    exact ⟨true, by simpa using hv.symm⟩
  rcases List.mem_cons.mp hp2 with h | h3
  · rw [h] at hv
    simp only [flagLookup, lookupF] at hv
    exact ⟨false, by simpa using hv.symm⟩
  · cases h3

/-- C7 counterexample: an appointment whose client record has no
firstName and lastName X yields a record with client_name X, not
Unknown X — the client rule is not the staff rule. -/
theorem C7_counterexample :
    partsFor "11" (Json.obj []) c7Appt [c7Part] = .ok [c7Rec] ∧
    c7Rec = Json.obj [("start", Json.str "09:00"), ("end", Json.str "09:30"),
      ("service", Json.str "Unknown Service"), ("client_name", Json.str "X"),
      ("client_email", Json.str ""), ("price", Json.str "50"),
      ("status", Json.str "booked")] ∧
    ("X" : String) ≠ "Unknown X" :=
  ⟨rfl, rfl, by decide⟩

/-- C7 (amended): client firstName defaults to the empty string — not
to Unknown as the staff rule does — lastName defaults to empty with a
falsy value collapsed to empty, the parts are joined by one space and
stripped, and only a fully empty composed client name is replaced by
the sentinel Unknown Client; so a client with no firstName and
lastName X gets name X where a staff record would get Unknown X. -/
theorem C7_client_name_rule :
    (∀ l : String, l ≠ "" →
      (∀ c, l.data.head? = some c → isPySpace c = false) →
      (∀ c, l.data.getLast? = some c → isPySpace c = false) →
      clientNameOf (Json.obj [("lastName", Json.str l)]) = .ok l ∧
      staffNameOf (Json.obj [("lastName", Json.str l)]) = .ok ("Unknown " ++ l)) ∧
    clientNameField "" = "Unknown Client" := by
  refine ⟨?_, rfl⟩
  intro l hne h1 h2
  exact ⟨clientNameOf_lastOnly l hne h1 h2, staffNameOf_lastOnly l hne h2⟩

/-- C7 witness: the two name rules evaluated at lastName X. -/
theorem C7_client_name_witness :
    ("X" : String) ≠ "" ∧
    clientNameOf (Json.obj [("lastName", Json.str "X")]) = .ok "X" ∧
    staffNameOf (Json.obj [("lastName", Json.str "X")]) = .ok ("Unknown " ++ "X") := by
  have h := C7_client_name_rule.1 "X" (by decide)
    (by intro c hc; cases hc; decide)
    (by intro c hc; cases hc; decide)
  exact ⟨by decide, h.1, h.2⟩

/-- C8 counterexample: the staff directory itself enumerates in
registry insertion order — a registry listing provider id 10 before
provider id 2 yields a directory whose key enumeration is 10 then 2,
not ascending by numeric value. -/
theorem C8_counterexample :
    buildStaff [("10", c8Info), ("2", c8Info)] = .ok
      [("10", Json.obj [("id", Json.str "10"), ("name", Json.str "Unknown"),
        ("email", Json.str "No email")]),
       ("2", Json.obj [("id", Json.str "2"), ("name", Json.str "Unknown"),
        ("email", Json.str "No email")])] ∧
    pyInt "10" = .ok 10 ∧ pyInt "2" = .ok 2 ∧ ¬ ((10 : Int) ≤ 2) :=
  ⟨rfl, rfl, rfl, by decide⟩

/-- C8 (amended): the display enumeration sorted_staff sorts the
directory ascending by the numeric value int(id) of the id string —
stable by insertion after equals — and raises ValueError when any id
fails to parse as an integer; the directory map itself enumerates in
registry order (counterexample). -/
theorem C8_sorted_enumeration :
    (∀ staff kl, mapIntKeys staff = .ok kl →
      sorted_staff staff = .ok ((sortOnInt kl).map Prod.snd) ∧
      List.Chain' numIdLe ((sortOnInt kl).map Prod.snd)) ∧
    (∀ staff p, p ∈ staff → (∃ e, pyInt p.1 = .error e) →
      ∃ e2, sorted_staff staff = .error e2) := by
  constructor
  · intro staff kl hmk
    constructor
    · simp only [sorted_staff, hmk]
    · have hpair := mapIntKeys_spec staff kl hmk
      have hfold := foldl_insort_spec kl ([] : List (Int × (String × Json))) (by simp)
      have hpair2 : ∀ p ∈ sortOnInt kl, pyInt p.2.1 = .ok p.1 := by
        intro p hp
        unfold sortOnInt at hp
        cases hfold.1 p hp with
        | inl hkl => exact hpair p hkl
        | inr hnil => cases hnil
      have hch : List.Chain' (fun u v => u.1 ≤ v.1) (sortOnInt kl) := hfold.2
      exact chain_int_pairs_to_entries (sortOnInt kl) hpair2 hch
  · intro staff p hp herr
    obtain ⟨e2, he2⟩ := mapIntKeys_error staff p hp herr
    exact ⟨e2, by simp only [sorted_staff, he2]⟩

/-- C8 witness: the display sort applied to a concrete directory. -/
theorem C8_sorted_witness :
    mapIntKeys [("10", c8Info), ("2", c8Info)] = .ok
      [(10, ("10", c8Info)), (2, ("2", c8Info))] ∧
    (sorted_staff [("10", c8Info), ("2", c8Info)] = .ok
      ((sortOnInt [(10, ("10", c8Info)), (2, ("2", c8Info))]).map Prod.snd) ∧
     List.Chain' numIdLe
      ((sortOnInt [(10, ("10", c8Info)), (2, ("2", c8Info))]).map Prod.snd)) :=
  ⟨rfl, C8_sorted_enumeration.1 [("10", c8Info), ("2", c8Info)]
    [(10, ("10", c8Info)), (2, ("2", c8Info))] rfl⟩

/-- C9: every staff id keyed in an inner map of a successful build's
composite schedule is a key of the built staff directory, and its raw
registry record carries a truthy serviceProvider flag. -/
theorem C9_inner_keys_are_providers :
    ∀ app docs cal res, build_comprehensive_data app docs cal = .ok res →
      ∀ q ∈ res.schedules, ∀ e ∈ q.2,
        e.1 ∈ res.staff.map Prod.fst ∧
        ∃ sd items info flag, staffDataOf app = .ok sd ∧ pyItems sd = .ok items ∧
          (e.1, info) ∈ items ∧
          pyGet info "serviceProvider" (Json.bool false) = .ok flag ∧
          truthy flag = true := by
  intro app docs cal res h q hq e he
  obtain ⟨sd, items, hsd, hitems, hstaff, hsch⟩ := build_decomp app docs cal res h
  have hfrom := schedulesOf_inner (res.staff.map Prod.fst)
    (if docs.isEmpty then Json.obj [] else cal) docs [] res.schedules hsch
    (by intro q2 hq2; cases hq2) q hq
  obtain ⟨date, sdd, ad, hps⟩ := hfrom
  have hkeys := perStaff_keys date sdd ad _ _ q.2 hps
  have hmem : e.1 ∈ res.staff.map Prod.fst := by
    rw [← hkeys]
    exact List.mem_map_of_mem Prod.fst he
  obtain ⟨info, flag, hmem2, hflag, htr⟩ := buildStaff_mem_src items res.staff hstaff e.1 hmem
  exact ⟨hmem, sd, items, info, flag, hsd, hitems, hmem2, hflag, htr⟩

/-- C9 witness: the invariant at the concrete run on cxDoc. -/
theorem C9_inner_keys_witness :
    build_comprehensive_data cxApp [cxDoc] cxCal = .ok cxRes ∧
    ("11" ∈ cxRes.staff.map Prod.fst ∧
      ∃ sd items info flag, staffDataOf cxApp = .ok sd ∧ pyItems sd = .ok items ∧
        ("11", info) ∈ items ∧
        pyGet info "serviceProvider" (Json.bool false) = .ok flag ∧
        truthy flag = true) :=
  ⟨rfl, C9_inner_keys_are_providers cxApp [cxDoc] cxCal cxRes rfl
    (Json.str "2025-07-26", [("11", cxDay)]) (by simp [cxRes])
    ("11", cxDay) (by simp)⟩
